import Mathlib

/-!
# Table schema queries of `tdi_table_info.cpp`

A shallow embedding of `src/tdi_json_parser/tdi_table_info.cpp`:

* the comparison operators of `Annotation`,
* the flat queries of `TableInfo` (`keyFieldIdListGet`, `keyFieldIdGet`,
  `keyFieldGet`, `dataFieldIdListGet`, `dataFieldGet`), and
* the scoped resolver `Table::getDataField` with the container search
  `Table::getDataFieldHelper` (id and name variants) of the disabled code.

Conventions of the embedding.

* A `std::map<K, V>` is the list of its entries in iteration order.  The
  class invariant of `std::map` (keys strictly ascending, hence unique) is the
  predicate `MapOk`; `find`/`at` is `mapFind`.
* `tdi_id_t` and `uint32_t` values are natural numbers.  The only arithmetic
  in the file is `depth + 1`, which is reduced modulo `2^32`.
* `container_id_vec[depth]` outside the vector is undefined behaviour in the
  source; the embedding records it as `Outcome.undefined`.
* The maps own their values through pointers that the source dereferences
  unchecked; the embedding stores the values themselves, and `none` stands for
  `nullptr` in results.
* `LOG_ERROR`/`LOG_WARN`/`LOG_TRACE` write a diagnostic and do not influence
  any returned value; they appear as comments at their place.
-/

namespace Tdi

/-- Result of a computation that may run into undefined behaviour. -/
inductive Outcome (α : Type) where
  | undefined : Outcome α
  | value : α → Outcome α

/-- Modelled from the spec: the class declaration of `TableDataField` /
`DataFieldInfo` lives in the header `tdi_table_info.hpp`, which is not part of
the sources at hand.  Section 3 of the spec: a data field has a numeric id, a
name, a flag marking whether it is a container and, for a container, a nested
id-keyed and a nested name-keyed map of further data fields. -/
inductive TableDataField where
  | mk (id : Nat) (name : String) (container_valid : Bool)
       (container : List (Nat × TableDataField))
       (container_names : List (String × TableDataField))

/-- The live code calls the same class `DataFieldInfo`. -/
abbrev DataFieldInfo := TableDataField

namespace TableDataField

/-- Modelled from the spec: the accessor `idGet()` of the absent header; it
returns the numeric id of the field. -/
def idGet : TableDataField → Nat
  | mk i _ _ _ _ => i

/-- Modelled from the spec: the accessor `nameGet()` of the absent header; it
returns the name of the field. -/
def nameGet : TableDataField → String
  | mk _ n _ _ _ => n

/-- Modelled from the spec: the accessor `isContainerValid()` of the absent
header; it returns the flag marking the field as a container. -/
def isContainerValid : TableDataField → Bool
  | mk _ _ v _ _ => v

/-- Modelled from the spec: the accessor `containerMapGet()` of the absent
header; it returns the nested id-keyed map. -/
def containerMapGet : TableDataField → List (Nat × TableDataField)
  | mk _ _ _ c _ => c

/-- Modelled from the spec: the accessor `containerNameMapGet()` of the absent
header; it returns the nested name-keyed map. -/
def containerNameMapGet : TableDataField → List (String × TableDataField)
  | mk _ _ _ _ c => c

end TableDataField

/-- The pair `map.find(k) != map.end()` / `map.at(k)`: the entry stored under
key `k`, if any. -/
def mapFind {K V : Type} [DecidableEq K] : List (K × V) → K → Option V
  | [], _ => none
  | (k', v) :: rest, k => if k' = k then some v else mapFind rest k

/-- The keys of a map in iteration order (`kv.first` for each `kv`). -/
def mapKeys {K V : Type} (m : List (K × V)) : List K :=
  m.map Prod.fst

/-- Class invariant of `std::map<tdi_id_t, _>`: iteration visits strictly
ascending keys. -/
def MapOk {V : Type} (m : List (Nat × V)) : Prop :=
  (mapKeys m).Sorted (· < ·)

instance {V : Type} (m : List (Nat × V)) : Decidable (MapOk m) := by
  unfold MapOk; infer_instance

/-- Range of `uint32_t`. -/
def UINT32_RANGE : Nat := 4294967296

/-- The path test of the loop in `getDataFieldHelper`,
`(container_id_vec.size() >= depth + 1 && container_id_vec[depth] == key)
 || container_id_vec.empty()`, with the evaluation order of C++: `depth + 1`
is computed in `uint32_t`, and the vector is read as soon as the size test
passes. -/
def pathAdmits (container_id_vec : List Nat) (depth key : Nat) : Outcome Bool :=
  if container_id_vec.length ≥ (depth + 1) % UINT32_RANGE then
    match container_id_vec[depth]? with
    | none => .undefined
    | some c => .value (c == key || container_id_vec.isEmpty)
  else .value container_id_vec.isEmpty

mutual
/-- The recursive call of the id variant on `p.second->containerMapGet()`:
first the direct `find`, then the loop over the nested map. -/
def helperField (field_id : Nat) (container_id_vec : List Nat) (depth : Nat) :
    TableDataField → Outcome (Option TableDataField)
  | .mk _ _ _ c _ =>
    match mapFind c field_id with
    | some f => .value (some f)
    | none => helperLoop field_id container_id_vec depth c
/-- The `for (const auto &p : field_map)` loop of the id variant, from the
entry at the head of the list on. -/
def helperLoop (field_id : Nat) (container_id_vec : List Nat) (depth : Nat) :
    List (Nat × TableDataField) → Outcome (Option TableDataField)
  | [] => .value none
  | (k, f) :: rest =>
    match pathAdmits container_id_vec depth k with
    | .undefined => .undefined
    | .value c =>
      if c && f.isContainerValid then
        match helperField field_id container_id_vec ((depth + 1) % UINT32_RANGE) f with
        | .undefined => .undefined
        | .value (some r) => .value (some r)
        | .value none => helperLoop field_id container_id_vec depth rest
      else helperLoop field_id container_id_vec depth rest
end

/-- The id variant of `Table::getDataFieldHelper(field_id, container_id_vec,
depth, field_map)`. -/
def getDataFieldHelper (field_id : Nat) (container_id_vec : List Nat) (depth : Nat)
    (field_map : List (Nat × TableDataField)) : Outcome (Option TableDataField) :=
  match mapFind field_map field_id with
  | some f => .value (some f)
  | none => helperLoop field_id container_id_vec depth field_map

mutual
/-- The recursive call of the name variant on
`p.second->containerNameMapGet()`. -/
def helperFieldName (field_name : String) (container_id_vec : List Nat) (depth : Nat) :
    TableDataField → Outcome (Option TableDataField)
  | .mk _ _ _ _ c =>
    match mapFind c field_name with
    | some f => .value (some f)
    | none => helperLoopName field_name container_id_vec depth c
/-- The loop of the name variant; the path test compares against
`p.second->idGet()`. -/
def helperLoopName (field_name : String) (container_id_vec : List Nat) (depth : Nat) :
    List (String × TableDataField) → Outcome (Option TableDataField)
  | [] => .value none
  | (_, f) :: rest =>
    match pathAdmits container_id_vec depth f.idGet with
    | .undefined => .undefined
    | .value c =>
      if c && f.isContainerValid then
        match helperFieldName field_name container_id_vec ((depth + 1) % UINT32_RANGE) f with
        | .undefined => .undefined
        | .value (some r) => .value (some r)
        | .value none => helperLoopName field_name container_id_vec depth rest
      else helperLoopName field_name container_id_vec depth rest
end

/-- The name variant of `Table::getDataFieldHelper(field_name,
container_id_vec, depth, field_map)`. -/
def getDataFieldHelperName (field_name : String) (container_id_vec : List Nat) (depth : Nat)
    (field_map : List (String × TableDataField)) : Outcome (Option TableDataField) :=
  match mapFind field_map field_name with
  | some f => .value (some f)
  | none => helperLoopName field_name container_id_vec depth field_map

mutual
/-- Number of map levels below a field that a search can enter. -/
def fieldNesting : TableDataField → Nat
  | .mk _ _ v c _ => if v then nestingDepth c else 0
/-- Number of map levels a search starting at this map can visit: `0` for the
empty map, `1` for a map of leaves, one more for each level of valid
containers. -/
def nestingDepth : List (Nat × TableDataField) → Nat
  | [] => 0
  | (_, f) :: rest => max (1 + fieldNesting f) (nestingDepth rest)
end

/-- The nested maps that can be reached from a map by stepping into valid
container fields. -/
inductive Reachable : List (Nat × TableDataField) → List (Nat × TableDataField) → Prop
  | here (m : List (Nat × TableDataField)) : Reachable m m
  | inside {m m' : List (Nat × TableDataField)} {k : Nat} {f : TableDataField} :
      (k, f) ∈ m → f.isContainerValid = true → Reachable f.containerMapGet m' →
      Reachable m m'

/-- Modelled from the spec: `ActionInfo` is declared in the absent header.
Section 3 of the spec: a numeric id, a name, and an id-keyed (and name-keyed)
map of the data fields that exist only when the action is selected. -/
structure ActionInfo where
  id : Nat
  name : String
  data_fields_ : List (Nat × DataFieldInfo)
  data_fields_names_ : List (String × DataFieldInfo)

/-- Modelled from the spec: `KeyFieldInfo` is declared in the absent header.
Section 3 of the spec: a numeric id and a name. -/
structure KeyFieldInfo where
  id : Nat
  name : String

/-- Modelled from the spec: the members of `TableInfo` are declared in the
absent header; the code reads `table_key_map_`, `table_data_map_` and
`table_action_map_`. -/
structure TableInfo where
  name : String
  table_key_map_ : List (Nat × KeyFieldInfo)
  table_data_map_ : List (Nat × DataFieldInfo)
  table_action_map_ : List (Nat × ActionInfo)

/-- The call `std::sort(id_vec.begin(), id_vec.end())` on a vector of ids. -/
def stdSort (id_vec : List Nat) : List Nat :=
  id_vec.insertionSort (· ≤ ·)

/-- The function `TableInfo::dataFieldIdListGet(action_id)`. -/
def dataFieldIdListGet (T : TableInfo) (action_id : Nat) : List Nat :=
  let id_vec : List Nat :=
    if action_id ≠ 0 then
      match mapFind T.table_action_map_ action_id with
      | none => []  -- LOG_ERROR "Action Id %d Not Found"
      | some a => mapKeys a.data_fields_
    else []
  -- Also include common data fields
  stdSort (id_vec ++ mapKeys T.table_data_map_)

/-- The function `TableInfo::dataFieldIdListGet()`. -/
def dataFieldIdListGetAll (T : TableInfo) : List Nat :=
  dataFieldIdListGet T 0

/-- The function `TableInfo::dataFieldGet(field_id, action_id)`; `none` is
`nullptr`. -/
def dataFieldGet (T : TableInfo) (field_id action_id : Nat) : Option DataFieldInfo :=
  let in_action : Option DataFieldInfo :=
    if action_id ≠ 0 then
      match mapFind T.table_action_map_ action_id with
      | some action_info => mapFind action_info.data_fields_ field_id
      | none => none
    else none
  match in_action with
  | some f => some f
  | none => mapFind T.table_data_map_ field_id

/-- The function `TableInfo::dataFieldGet(field_id)`. -/
def dataFieldGetCommon (T : TableInfo) (field_id : Nat) : Option DataFieldInfo :=
  dataFieldGet T field_id 0

/-! ## Example schemas -/

/-- A leaf data field. -/
def leafField (id : Nat) (name : String) : TableDataField :=
  .mk id name false [] []

/-- A valid container field holding the given sub-fields, indexed by id and by
name. -/
def containerField (id : Nat) (name : String) (subs : List (Nat × TableDataField))
    (subs_names : List (String × TableDataField)) : TableDataField :=
  .mk id name true subs subs_names

/-- Example table of section 8 of the spec: action `1` with data fields
`{5, 6}`, common data fields `{5, 7}`. -/
def exampleTable : TableInfo where
  name := "t"
  table_key_map_ := []
  table_data_map_ := [(5, leafField 5 "common5"), (7, leafField 7 "common7")]
  table_action_map_ :=
    [(1, { id := 1, name := "a",
           data_fields_ := [(5, leafField 5 "action5"), (6, leafField 6 "action6")],
           data_fields_names_ := [("action5", leafField 5 "action5"),
                                  ("action6", leafField 6 "action6")] })]

/-- Example of section 8 of the spec: a common map with container `C` (id 10)
holding the sub-field `X` (id 20). -/
def exampleCommon : List (Nat × TableDataField) :=
  [(10, containerField 10 "C" [(20, leafField 20 "X")] [("X", leafField 20 "X")])]

/-- Example of claim C3: container `10` holding container `30` holding field
`20`. -/
def exampleNested : List (Nat × TableDataField) :=
  [(10, containerField 10 "C"
      [(30, containerField 30 "D" [(20, leafField 20 "X")] [("X", leafField 20 "X")])]
      [("D", containerField 30 "D" [(20, leafField 20 "X")] [("X", leafField 20 "X")])])]

/-- Table with an action stored under id `0` whose data field `5` differs from
the common data field `5`. -/
def exampleZeroAction : TableInfo where
  name := "z"
  table_key_map_ := []
  table_data_map_ := [(5, leafField 5 "common5")]
  table_action_map_ :=
    [(0, { id := 0, name := "a0",
           data_fields_ := [(5, leafField 5 "action5"), (6, leafField 6 "action6")],
           data_fields_names_ := [] })]

/-- The nested map of container `10` in `exampleNested`: container `30`
holding field `20`. -/
def exampleInner : List (Nat × TableDataField) :=
  [(30, containerField 30 "D" [(20, leafField 20 "X")] [("X", leafField 20 "X")])]

/-- The name-keyed counterpart of `exampleCommon`. -/
def exampleCommonNames : List (String × TableDataField) :=
  [("C", containerField 10 "C" [(20, leafField 20 "X")] [("X", leafField 20 "X")])]

/-! ## Key fields and annotations -/

namespace KeyFieldInfo

/-- Modelled from the spec: the accessor `idGet()` of the absent header; it
returns the numeric id of the key field. -/
def idGet (f : KeyFieldInfo) : Nat := f.id

/-- Modelled from the spec: the accessor `nameGet()` of the absent header; it
returns the name of the key field. -/
def nameGet (f : KeyFieldInfo) : String := f.name

end KeyFieldInfo

/-- The function `TableInfo::keyFieldIdListGet()`. -/
def keyFieldIdListGet (T : TableInfo) : List Nat :=
  stdSort (mapKeys T.table_key_map_)

/-- The function `TableInfo::keyFieldIdGet(name)`: `std::find_if` over the key
map in iteration order with the predicate `name == map_item.second->nameGet()`;
the id of the field found, and `0` when there is none. -/
def keyFieldIdGet (T : TableInfo) (name : String) : Nat :=
  match T.table_key_map_.find? (fun map_item => name == map_item.2.nameGet) with
  | some found => found.2.idGet
  | none => 0  -- LOG_ERROR "Field not found in key field list"

/-- The function `TableInfo::keyFieldGet(field_id)`; `none` is `nullptr`
(returned after a `LOG_ERROR`). -/
def keyFieldGet (T : TableInfo) (field_id : Nat) : Option KeyFieldInfo :=
  mapFind T.table_key_map_ field_id

/-- Modelled from the spec: the members of `Annotation` are declared in the
absent header; the code reads `full_name_` only.  A `std::string` is taken as
a `String`: its comparison is lexicographic in the character codes, as the
byte-wise comparison of `std::string` is on UTF-8 text. -/
structure Annotation where
  full_name_ : String

/-- Status codes returned by the functions of the file. -/
inductive tdi_status_t where
  | TDI_SUCCESS
  | TDI_OBJECT_NOT_FOUND
  deriving DecidableEq

namespace Annotation

/-- The operator `Annotation::operator<(const Annotation &)`. -/
def less (self other : Annotation) : Bool :=
  decide (self.full_name_ < other.full_name_)

/-- The operator `Annotation::operator==(const Annotation &)`. -/
def equals (self other : Annotation) : Bool :=
  self.full_name_ == other.full_name_

/-- The operator `Annotation::operator==(const std::string &)`. -/
def equalsString (self : Annotation) (other_str : String) : Bool :=
  self.full_name_ == other_str

/-- The function `Annotation::fullNameGet(std::string *full_name)`: the status
and the string written through the pointer. -/
def fullNameGet (self : Annotation) : tdi_status_t × String :=
  (tdi_status_t.TDI_SUCCESS, self.full_name_)

end Annotation

/-- Example of section 8 of the spec: key fields `("ipv4_addr", 1)` and
`("port", 2)`. -/
def exampleKeyTable : TableInfo where
  name := "k"
  table_key_map_ := [(1, { id := 1, name := "ipv4_addr" }), (2, { id := 2, name := "port" })]
  table_data_map_ := []
  table_action_map_ := []

/-- A table whose only key field has id `0`. -/
def exampleKeyZero : TableInfo where
  name := "k0"
  table_key_map_ := [(0, { id := 0, name := "vrf" })]
  table_data_map_ := []
  table_action_map_ := []

/-! ## The scoped resolver of the disabled `Table` code -/

/-- Modelled from the spec: the members of the class `Table` used by the
disabled code are declared in an absent header; the code reads
`action_info_list` (whose entries carry the maps `data_fields` and
`data_fields_names`, here the fields `data_fields_` and `data_fields_names_`
of `ActionInfo`), `common_data_fields` and `common_data_fields_names`. -/
structure Table where
  action_info_list : List (Nat × ActionInfo)
  common_data_fields : List (Nat × TableDataField)
  common_data_fields_names : List (String × TableDataField)

/-- The id variant of `Table::getDataField(field_id, action_id,
container_id_vec, field)`: the returned status together with the pointer
written to `*field`. -/
def getDataField (tbl : Table) (field_id action_id : Nat) (container_id_vec : List Nat) :
    Outcome (tdi_status_t × Option TableDataField) :=
  -- *field = nullptr
  let in_action : Outcome (Option TableDataField) :=
    match mapFind tbl.action_info_list action_id with
    | some action_info => getDataFieldHelper field_id container_id_vec 0 action_info.data_fields_
    | none => .value none
  match in_action with
  | .undefined => .undefined
  | .value (some f) => .value (tdi_status_t.TDI_SUCCESS, some f)
  | .value none =>
    -- We need to search the common data too
    match getDataFieldHelper field_id container_id_vec 0 tbl.common_data_fields with
    | .undefined => .undefined
    | .value (some f) => .value (tdi_status_t.TDI_SUCCESS, some f)
    | .value none => .value (tdi_status_t.TDI_OBJECT_NOT_FOUND, none)  -- LOG_WARN

/-- The path test of the loop as a plain boolean, for depths at which
`depth + 1` does not wrap. -/
def admits (container_id_vec : List Nat) (depth key : Nat) : Bool :=
  container_id_vec[depth]? == some key || container_id_vec.isEmpty

/-- The loop of `getDataFieldHelper` with the recursive call passed in as
`call`; `none` says that the call ran out of fuel. -/
def helperLoopWith (call : Nat → List (Nat × TableDataField) → Option (Outcome (Option TableDataField)))
    (container_id_vec : List Nat) (depth : Nat) :
    List (Nat × TableDataField) → Option (Outcome (Option TableDataField))
  | [] => some (.value none)
  | (k, f) :: rest =>
    match pathAdmits container_id_vec depth k with
    | .undefined => some .undefined
    | .value c =>
      if c && f.isContainerValid then
        match call ((depth + 1) % UINT32_RANGE) f.containerMapGet with
        | none => none
        | some .undefined => some .undefined
        | some (.value (some r)) => some (.value (some r))
        | some (.value none) => helperLoopWith call container_id_vec depth rest
      else helperLoopWith call container_id_vec depth rest

/-- The id variant of `getDataFieldHelper` in the shape of the source, a
function of the map that calls itself on the nested maps, with `fuel` bounding
the number of nested calls; `none` says that the fuel ran out. -/
def getDataFieldHelperFuel :
    Nat → Nat → List Nat → Nat → List (Nat × TableDataField) →
      Option (Outcome (Option TableDataField))
  | 0, _, _, _, _ => none
  | fuel + 1, field_id, container_id_vec, depth, field_map =>
    match mapFind field_map field_id with
    | some f => some (.value (some f))
    | none =>
      helperLoopWith (fun d m => getDataFieldHelperFuel fuel field_id container_id_vec d m)
        container_id_vec depth field_map

mutual
/-- All fields stored below a field, at any nesting level. -/
def fieldSubfields : TableDataField → List TableDataField
  | .mk _ _ _ c _ => treeFields c
/-- All fields of the tree under an id-keyed map: its own values and the
fields nested in them, valid container or not. -/
def treeFields : List (Nat × TableDataField) → List TableDataField
  | [] => []
  | (_, f) :: rest => f :: (fieldSubfields f ++ treeFields rest)
end

/-- Example for the scoped resolver: action `1` holds container `10` with the
sub-field `20` named `"Xa"`, the common map holds a field `20` named `"Xc"` at
its top level. -/
def exampleScoped : Table where
  action_info_list :=
    [(1, { id := 1, name := "a",
           data_fields_ := [(10, containerField 10 "C" [(20, leafField 20 "Xa")]
                                   [("Xa", leafField 20 "Xa")])],
           data_fields_names_ := [("C", containerField 10 "C" [(20, leafField 20 "Xa")]
                                          [("Xa", leafField 20 "Xa")])] })]
  common_data_fields := [(20, leafField 20 "Xc")]
  common_data_fields_names := [("Xc", leafField 20 "Xc")]

/-- The maps of `exampleTable` seen through the class `Table`. -/
def exampleFlat : Table where
  action_info_list := exampleTable.table_action_map_
  common_data_fields := exampleTable.table_data_map_
  common_data_fields_names := [("common5", leafField 5 "common5"), ("common7", leafField 7 "common7")]

/-! ## Schemas indexed consistently by id and by name -/

/-- An id-keyed map and a name-keyed map index the same fields, each field
under its own id and under its own name. -/
def LevelOk (idm : List (Nat × TableDataField)) (nm : List (String × TableDataField)) : Prop :=
  (∀ g, g ∈ idm.map Prod.snd ↔ g ∈ nm.map Prod.snd) ∧
    (∀ q ∈ idm, q.1 = q.2.idGet) ∧ (∀ q ∈ nm, q.1 = q.2.nameGet)

mutual
/-- The two nested maps of a field index the same fields, and so do the
nested maps of all fields below it. -/
def FieldIndexed : TableDataField → Prop
  | .mk _ _ _ c cn => LevelOk c cn ∧ MapIndexed c
/-- Every field of the map is indexed consistently at all nesting levels. -/
def MapIndexed : List (Nat × TableDataField) → Prop
  | [] => True
  | (_, f) :: rest => FieldIndexed f ∧ MapIndexed rest
end

/-- Example for claim C18, id-keyed: container `1` is named `"z"`, container
`2` is named `"a"` and holds field `20`, so the id order and the name order of
the two containers differ. -/
def exampleById : List (Nat × TableDataField) :=
  [(1, containerField 1 "z" [(3, leafField 3 "u")] [("u", leafField 3 "u")]),
   (2, containerField 2 "a" [(20, leafField 20 "X")] [("X", leafField 20 "X")])]

/-- Example for claim C18, name-keyed counterpart of `exampleById`. -/
def exampleByName : List (String × TableDataField) :=
  [("a", containerField 2 "a" [(20, leafField 20 "X")] [("X", leafField 20 "X")]),
   ("z", containerField 1 "z" [(3, leafField 3 "u")] [("u", leafField 3 "u")])]

/-! ## Lemmas on maps and sorting -/

theorem helperField_eq (t : Nat) (p : List Nat) (d : Nat) (f : TableDataField) :
    helperField t p d f = getDataFieldHelper t p d f.containerMapGet := by
  cases f; rfl

theorem stdSort_sorted (l : List Nat) : (stdSort l).Sorted (· ≤ ·) :=
  List.sorted_insertionSort (· ≤ ·) l

theorem stdSort_perm (l : List Nat) : (stdSort l).Perm l :=
  List.perm_insertionSort (· ≤ ·) l

theorem stdSort_of_ascending {l : List Nat} (h : l.Sorted (· < ·)) : stdSort l = l :=
  List.Sorted.insertionSort_eq (h.imp (fun hab => Nat.le_of_lt hab))

theorem mapFind_isSome_iff {K V : Type} [DecidableEq K] (m : List (K × V)) (k : K) :
    (mapFind m k).isSome = true ↔ k ∈ mapKeys m := by
  induction m with
  | nil => simp [mapFind, mapKeys]
  | cons p rest ih =>
    obtain ⟨k', v⟩ := p
    by_cases h : k' = k
    · simp [mapFind, mapKeys, h]
    · have h' : ¬ k = k' := fun e => h e.symm
      simpa [mapFind, mapKeys, h, h'] using ih

theorem mapFind_eq_none_iff {K V : Type} [DecidableEq K] (m : List (K × V)) (k : K) :
    mapFind m k = none ↔ k ∉ mapKeys m := by
  rw [← mapFind_isSome_iff]
  cases mapFind m k <;> simp

theorem mapFind_some_mem {K V : Type} [DecidableEq K] {m : List (K × V)} {k : K} {v : V}
    (h : mapFind m k = some v) : (k, v) ∈ m := by
  induction m with
  | nil => simp [mapFind] at h
  | cons p rest ih =>
    obtain ⟨k', w⟩ := p
    by_cases hk : k' = k
    · simp [mapFind, hk] at h
      simp [hk, h]
    · simp [mapFind, hk] at h
      exact List.mem_cons_of_mem _ (ih h)

/-! ## The container search -/

theorem helperLoop_nil (t : Nat) (p : List Nat) (d : Nat) :
    helperLoop t p d [] = .value none := by
  rw [helperLoop]

theorem helperLoop_cons (t : Nat) (p : List Nat) (d k : Nat) (f : TableDataField)
    (rest : List (Nat × TableDataField)) :
    helperLoop t p d ((k, f) :: rest) =
      match pathAdmits p d k with
      | .undefined => .undefined
      | .value c =>
        if c && f.isContainerValid then
          match getDataFieldHelper t p ((d + 1) % UINT32_RANGE) f.containerMapGet with
          | .undefined => .undefined
          | .value (some r) => .value (some r)
          | .value none => helperLoop t p d rest
        else helperLoop t p d rest := by
  rw [helperLoop, helperField_eq]

theorem pathAdmits_empty (d k : Nat) :
    pathAdmits [] d k = .undefined ∨ pathAdmits [] d k = .value true := by
  unfold pathAdmits
  split <;> simp

theorem pathAdmits_empty_of_lt {d : Nat} (k : Nat) (hd : d + 1 < UINT32_RANGE) :
    pathAdmits [] d k = .value true := by
  unfold pathAdmits
  rw [Nat.mod_eq_of_lt hd]
  simp

theorem pathAdmits_of_lt {p : List Nat} {d : Nat} (k : Nat) (hd : d < p.length) :
    pathAdmits p d k = .value (p[d] == k) := by
  unfold pathAdmits
  have h1 : p.length ≥ (d + 1) % UINT32_RANGE :=
    le_trans (Nat.mod_le _ _) hd
  have h2 : p ≠ [] := by
    intro h; subst h; simp at hd
  simp [h1, List.getElem?_eq_getElem hd, h2]

theorem pathAdmits_exhausted {p : List Nat} {d : Nat} (k : Nat) (hp : p ≠ [])
    (hlen : p.length ≤ d) (hd : d + 1 < UINT32_RANGE) :
    pathAdmits p d k = .value false := by
  unfold pathAdmits
  rw [Nat.mod_eq_of_lt hd]
  have h1 : ¬ p.length ≥ d + 1 := by omega
  simp [h1, hp]
theorem helperLoop_exhausted (t : Nat) {p : List Nat} {d : Nat} (hp : p ≠ [])
    (hlen : p.length ≤ d) (hd : d + 1 < UINT32_RANGE) (m : List (Nat × TableDataField)) :
    helperLoop t p d m = .value none := by
  induction m with
  | nil => exact helperLoop_nil t p d
  | cons q rest ih =>
    obtain ⟨k, f⟩ := q
    rw [helperLoop_cons, pathAdmits_exhausted k hp hlen hd]
    simpa using ih

theorem helperLoop_no_key (t : Nat) {p : List Nat} {d : Nat} (hd : d < p.length)
    (m : List (Nat × TableDataField)) (hk : p[d] ∉ mapKeys m) :
    helperLoop t p d m = .value none := by
  induction m with
  | nil => exact helperLoop_nil t p d
  | cons q rest ih =>
    obtain ⟨k, f⟩ := q
    have hne : ¬ p[d] = k := by
      intro h; apply hk; simp [mapKeys, h]
    have hrest : p[d] ∉ mapKeys rest := by
      intro h; apply hk; simp only [mapKeys, List.map_cons, List.mem_cons]; exact Or.inr h
    rw [helperLoop_cons, pathAdmits_of_lt k hd]
    simpa [hne] using ih hrest

theorem MapOk_tail {V : Type} {q : Nat × V} {rest : List (Nat × V)} (h : MapOk (q :: rest)) :
    MapOk rest := by
  unfold MapOk mapKeys at *
  exact (List.sorted_cons.mp h).2

theorem MapOk_head_not_mem {V : Type} {q : Nat × V} {rest : List (Nat × V)}
    (h : MapOk (q :: rest)) : q.1 ∉ mapKeys rest := by
  unfold MapOk mapKeys at *
  intro hmem
  exact Nat.lt_irrefl _ ((List.sorted_cons.mp h).1 _ hmem)

theorem helperLoop_path (t : Nat) {p : List Nat} {d : Nat} (hd : d < p.length)
    (m : List (Nat × TableDataField)) (hOk : MapOk m) :
    helperLoop t p d m =
      match mapFind m p[d] with
      | some f =>
        if f.isContainerValid then
          getDataFieldHelper t p ((d + 1) % UINT32_RANGE) f.containerMapGet
        else .value none
      | none => .value none := by
  induction m with
  | nil => simp [helperLoop_nil, mapFind]
  | cons q rest ih =>
    obtain ⟨k, f⟩ := q
    rw [helperLoop_cons, pathAdmits_of_lt k hd]
    by_cases hk : k = p[d]
    · have hrest : helperLoop t p d rest = .value none := by
        apply helperLoop_no_key t hd
        rw [← hk]; exact MapOk_head_not_mem hOk
      simp only [mapFind, hk, if_true, beq_self_eq_true, Bool.true_and, hrest]
      cases f.isContainerValid with
      | false => simp
      | true =>
        simp only [if_true]
        cases getDataFieldHelper t p ((d + 1) % UINT32_RANGE) f.containerMapGet with
        | undefined => rfl
        | value r => cases r <;> rfl
    · have hk' : ¬ p[d] = k := fun e => hk e.symm
      simp only [mapFind, hk, if_false]
      simpa [hk'] using ih (MapOk_tail hOk)

theorem getDataFieldHelper_of_find {t : Nat} {m : List (Nat × TableDataField)}
    {f : TableDataField} (p : List Nat) (d : Nat) (h : mapFind m t = some f) :
    getDataFieldHelper t p d m = .value (some f) := by
  simp [getDataFieldHelper, h]

theorem getDataFieldHelper_of_not_find {t : Nat} {m : List (Nat × TableDataField)}
    (p : List Nat) (d : Nat) (h : mapFind m t = none) :
    getDataFieldHelper t p d m = helperLoop t p d m := by
  simp [getDataFieldHelper, h]

theorem getDataFieldHelperName_of_find {n : String} {m : List (String × TableDataField)}
    {f : TableDataField} (p : List Nat) (d : Nat) (h : mapFind m n = some f) :
    getDataFieldHelperName n p d m = .value (some f) := by
  simp [getDataFieldHelperName, h]

theorem nestingDepth_cons (k : Nat) (f : TableDataField) (rest : List (Nat × TableDataField)) :
    nestingDepth ((k, f) :: rest) = max (1 + fieldNesting f) (nestingDepth rest) := by
  rw [nestingDepth]

theorem fieldNesting_of_valid {f : TableDataField} (h : f.isContainerValid = true) :
    fieldNesting f = nestingDepth f.containerMapGet := by
  cases f with
  | mk i n v c cn =>
    simp only [TableDataField.isContainerValid] at h
    rw [fieldNesting]
    simp [h, TableDataField.containerMapGet]

theorem nestingDepth_of_mem {m : List (Nat × TableDataField)} {q : Nat × TableDataField}
    (hq : q ∈ m) (hv : q.2.isContainerValid = true) :
    nestingDepth q.2.containerMapGet + 1 ≤ nestingDepth m := by
  induction m with
  | nil => simp at hq
  | cons a rest ih =>
    obtain ⟨k, f⟩ := a
    rw [nestingDepth_cons]
    rcases List.mem_cons.mp hq with h | h
    · subst h
      rw [fieldNesting_of_valid hv]
      have := Nat.le_max_left (1 + nestingDepth f.containerMapGet) (nestingDepth rest)
      simp only at this ⊢
      omega
    · have := ih h
      have := Nat.le_max_right (1 + fieldNesting f) (nestingDepth rest)
      omega

theorem nestingDepth_pos_of_ne_nil {m : List (Nat × TableDataField)} (h : m ≠ []) :
    1 ≤ nestingDepth m := by
  cases m with
  | nil => exact absurd rfl h
  | cons a rest =>
    obtain ⟨k, f⟩ := a
    rw [nestingDepth_cons]
    have := Nat.le_max_left (1 + fieldNesting f) (nestingDepth rest)
    omega

theorem helperLoop_defined_of_subs (t : Nat) {d : Nat} (hd : d + 1 < UINT32_RANGE)
    (m : List (Nat × TableDataField))
    (hsub : ∀ q ∈ m, q.2.isContainerValid = true →
      ∃ r, getDataFieldHelper t [] (d + 1) q.2.containerMapGet = .value r) :
    ∃ r, helperLoop t [] d m = .value r := by
  induction m with
  | nil => exact ⟨none, helperLoop_nil t [] d⟩
  | cons a rest ih =>
    obtain ⟨k, f⟩ := a
    have ihr := ih (fun q hq hv => hsub q (List.mem_cons_of_mem _ hq) hv)
    rw [helperLoop_cons, pathAdmits_empty_of_lt k hd, Nat.mod_eq_of_lt hd]
    cases hv : f.isContainerValid with
    | false => simpa using ihr
    | true =>
      obtain ⟨r, hr⟩ := hsub (k, f) (List.mem_cons_self _ _) hv
      simp only [Bool.and_self, if_true]
      rw [hr]
      cases r with
      | none => simpa using ihr
      | some x => exact ⟨some x, rfl⟩

theorem getDataFieldHelper_defined (t : Nat) :
    ∀ (n : Nat) (m : List (Nat × TableDataField)) (d : Nat), nestingDepth m ≤ n →
      d + nestingDepth m < UINT32_RANGE → ∃ r, getDataFieldHelper t [] d m = .value r := by
  intro n
  induction n with
  | zero =>
    intro m d hn _
    cases m with
    | nil => exact ⟨none, rfl⟩
    | cons a rest =>
      have := nestingDepth_pos_of_ne_nil (List.cons_ne_nil a rest)
      omega
  | succ n ih =>
    intro m d hn hd
    cases hfind : mapFind m t with
    | some f => exact ⟨some f, getDataFieldHelper_of_find [] d hfind⟩
    | none =>
      rw [getDataFieldHelper_of_not_find [] d hfind]
      cases m with
      | nil => exact ⟨none, helperLoop_nil t [] d⟩
      | cons a rest =>
        have hpos := nestingDepth_pos_of_ne_nil (List.cons_ne_nil a rest)
        apply helperLoop_defined_of_subs t (by omega)
        intro q hq hv
        have hlt := nestingDepth_of_mem hq hv
        exact ih _ _ (by omega) (by omega)

theorem helperLoop_wildcard_some (t d : Nat) (x : TableDataField) :
    ∀ m : List (Nat × TableDataField), helperLoop t [] d m = .value (some x) →
      ∃ pre k c post, m = pre ++ (k, c) :: post ∧ c.isContainerValid = true ∧
        getDataFieldHelper t [] ((d + 1) % UINT32_RANGE) c.containerMapGet = .value (some x) ∧
        ∀ q ∈ pre, q.2.isContainerValid = true →
          getDataFieldHelper t [] ((d + 1) % UINT32_RANGE) q.2.containerMapGet = .value none := by
  intro m
  induction m with
  | nil =>
    intro h
    rw [helperLoop_nil] at h
    cases h
  | cons a rest ih =>
    obtain ⟨k, f⟩ := a
    intro h
    rw [helperLoop_cons] at h
    rcases pathAdmits_empty d k with hp | hp
    · rw [hp] at h; cases h
    · rw [hp] at h
      cases hv : f.isContainerValid with
      | false =>
        simp only [hv, Bool.and_false, Bool.false_eq_true, if_false] at h
        obtain ⟨pre, k', c, post, hm, hc, hsub, hpre⟩ := ih h
        refine ⟨(k, f) :: pre, k', c, post, by simp [hm], hc, hsub, ?_⟩
        intro q hq hqv
        rcases List.mem_cons.mp hq with e | e
        · subst e; simp [hv] at hqv
        · exact hpre q e hqv
      | true =>
        simp only [hv, Bool.and_self, if_true] at h
        cases hs : getDataFieldHelper t [] ((d + 1) % UINT32_RANGE) f.containerMapGet with
        | undefined => rw [hs] at h; cases h
        | value r =>
          rw [hs] at h
          cases r with
          | some y =>
            simp only at h
            have hy : y = x := by
              injection h with h'; injection h'
            subst hy
            exact ⟨[], k, f, rest, rfl, hv, hs, by simp⟩
          | none =>
            simp only at h
            obtain ⟨pre, k', c, post, hm, hc, hsub, hpre⟩ := ih h
            refine ⟨(k, f) :: pre, k', c, post, by simp [hm], hc, hsub, ?_⟩
            intro q hq hqv
            rcases List.mem_cons.mp hq with e | e
            · subst e; exact hs
            · exact hpre q e hqv

theorem helperLoop_wildcard_succeeds (t : Nat) {d : Nat} (hd : d + 1 < UINT32_RANGE)
    (m : List (Nat × TableDataField))
    (hsub : ∀ q ∈ m, q.2.isContainerValid = true →
      ∃ r, getDataFieldHelper t [] (d + 1) q.2.containerMapGet = .value r)
    {q : Nat × TableDataField} (hq : q ∈ m) (hv : q.2.isContainerValid = true)
    {x : TableDataField}
    (hx : getDataFieldHelper t [] (d + 1) q.2.containerMapGet = .value (some x)) :
    ∃ y, helperLoop t [] d m = .value (some y) := by
  induction m with
  | nil => simp at hq
  | cons a rest ih =>
    obtain ⟨k, f⟩ := a
    rw [helperLoop_cons, pathAdmits_empty_of_lt k hd, Nat.mod_eq_of_lt hd]
    cases hfv : f.isContainerValid with
    | false =>
      simp only [Bool.and_false, Bool.false_eq_true, if_false]
      rcases List.mem_cons.mp hq with e | e
      · subst e; simp [hfv] at hv
      · exact ih (fun q' hq' hv' => hsub q' (List.mem_cons_of_mem _ hq') hv') e
    | true =>
      simp only [Bool.and_self, if_true]
      obtain ⟨r, hr⟩ := hsub (k, f) (List.mem_cons_self _ _) hfv
      rw [hr]
      cases r with
      | some y => exact ⟨y, rfl⟩
      | none =>
        simp only
        rcases List.mem_cons.mp hq with e | e
        · subst e
          rw [hr] at hx; cases hx
        · exact ih (fun q' hq' hv' => hsub q' (List.mem_cons_of_mem _ hq') hv') e

theorem getDataFieldHelper_wildcard_reach (t : Nat) :
    ∀ (n : Nat) (m : List (Nat × TableDataField)) (d : Nat) (x : TableDataField),
      nestingDepth m ≤ n → getDataFieldHelper t [] d m = .value (some x) →
      ∃ m', Reachable m m' ∧ mapFind m' t = some x := by
  intro n
  induction n with
  | zero =>
    intro m d x hn h
    cases m with
    | nil => cases h
    | cons a rest =>
      have := nestingDepth_pos_of_ne_nil (List.cons_ne_nil a rest)
      omega
  | succ n ih =>
    intro m d x hn h
    cases hfind : mapFind m t with
    | some f =>
      rw [getDataFieldHelper_of_find [] d hfind] at h
      have hf : f = x := by
        injection h with h'; injection h'
      subst hf
      exact ⟨m, Reachable.here m, hfind⟩
    | none =>
      rw [getDataFieldHelper_of_not_find [] d hfind] at h
      obtain ⟨pre, k, c, post, hm, hc, hsub, _⟩ := helperLoop_wildcard_some t d x m h
      have hmem : (k, c) ∈ m := by rw [hm]; simp
      have hlt := nestingDepth_of_mem hmem hc
      obtain ⟨m', hreach, hkey⟩ := ih _ _ x (by simp only at hlt; omega) hsub
      exact ⟨m', Reachable.inside hmem hc hreach, hkey⟩

theorem getDataFieldHelper_wildcard_of_reach (t : Nat) {m m' : List (Nat × TableDataField)}
    (hreach : Reachable m m') (hkey : t ∈ mapKeys m') :
    ∀ d, d + nestingDepth m < UINT32_RANGE →
      ∃ x, getDataFieldHelper t [] d m = .value (some x) := by
  induction hreach with
  | here m =>
    intro d _
    cases hfind : mapFind m t with
    | some f => exact ⟨f, getDataFieldHelper_of_find [] d hfind⟩
    | none => exact absurd hkey ((mapFind_eq_none_iff m t).mp hfind)
  | @inside m0 m1 k f hmem hv _ ih =>
    intro d hd
    cases hfind : mapFind m0 t with
    | some g => exact ⟨g, getDataFieldHelper_of_find [] d hfind⟩
    | none =>
      rw [getDataFieldHelper_of_not_find [] d hfind]
      have hlt := nestingDepth_of_mem hmem hv
      simp only at hlt
      obtain ⟨x, hx⟩ := ih hkey (d + 1) (by omega)
      have hd1 : d + 1 < UINT32_RANGE := by omega
      refine helperLoop_wildcard_succeeds t hd1 m0 ?_ hmem hv hx
      intro q hq hqv
      have hq' := nestingDepth_of_mem hq hqv
      exact getDataFieldHelper_defined t _ _ _ (le_refl _) (by omega)

theorem MapOk_split {V : Type} {pre post : List (Nat × V)} {a : Nat × V}
    (h : MapOk (pre ++ a :: post)) :
    (∀ q ∈ pre, q.1 < a.1) ∧ (∀ q ∈ post, a.1 < q.1) := by
  unfold MapOk mapKeys at h
  rw [List.map_append, List.map_cons] at h
  have h' := List.pairwise_append.mp h
  constructor
  · intro q hq
    exact h'.2.2 q.1 (List.mem_map_of_mem Prod.fst hq) a.1 (List.mem_cons_self _ _)
  · intro q hq
    exact (List.pairwise_cons.mp h'.2.1).1 q.1 (List.mem_map_of_mem Prod.fst hq)

theorem helperLoop_wildcard_none (t d : Nat) :
    ∀ m : List (Nat × TableDataField), helperLoop t [] d m = .value none →
      ∀ q ∈ m, q.2.isContainerValid = true →
        getDataFieldHelper t [] ((d + 1) % UINT32_RANGE) q.2.containerMapGet = .value none := by
  intro m
  induction m with
  | nil => intro _ q hq; simp at hq
  | cons a rest ih =>
    obtain ⟨k, f⟩ := a
    intro h q hq hqv
    rw [helperLoop_cons] at h
    rcases pathAdmits_empty d k with hp | hp
    · rw [hp] at h; cases h
    · rw [hp] at h
      cases hv : f.isContainerValid with
      | false =>
        simp only [hv, Bool.and_false, Bool.false_eq_true, if_false] at h
        rcases List.mem_cons.mp hq with e | e
        · subst e; simp [hv] at hqv
        · exact ih h q e hqv
      | true =>
        simp only [hv, Bool.and_self, if_true] at h
        cases hs : getDataFieldHelper t [] ((d + 1) % UINT32_RANGE) f.containerMapGet with
        | undefined => rw [hs] at h; cases h
        | value r =>
          rw [hs] at h
          cases r with
          | some y =>
            simp only at h
            injection h with h'
            cases h'
          | none =>
            simp only at h
            rcases List.mem_cons.mp hq with e | e
            · subst e; exact hs
            · exact ih h q e hqv

theorem getDataFieldHelper_wildcard_none (t : Nat) {m m' : List (Nat × TableDataField)}
    (hreach : Reachable m m') :
    ∀ d, getDataFieldHelper t [] d m = .value none → t ∉ mapKeys m' := by
  induction hreach with
  | here m =>
    intro d h
    cases hfind : mapFind m t with
    | some f =>
      rw [getDataFieldHelper_of_find [] d hfind] at h
      injection h with h'
      cases h'
    | none => exact (mapFind_eq_none_iff m t).mp hfind
  | @inside m0 m1 k f hmem hv _ ih =>
    intro d h
    cases hfind : mapFind m0 t with
    | some g =>
      rw [getDataFieldHelper_of_find [] d hfind] at h
      injection h with h'
      cases h'
    | none =>
      rw [getDataFieldHelper_of_not_find [] d hfind] at h
      exact ih _ (helperLoop_wildcard_none t d m0 h (k, f) hmem hv)

theorem getDataFieldHelper_wildcard_value (t d : Nat) (m : List (Nat × TableDataField))
    (hOk : MapOk m) (r : Option TableDataField)
    (hr : getDataFieldHelper t [] d m = .value r) :
    (r.isSome = true ↔ (t ∈ mapKeys m ∨ ∃ m', Reachable m m' ∧ t ∈ mapKeys m')) ∧
      (∀ x, r = some x → ∃ m', Reachable m m' ∧ mapFind m' t = some x) ∧
      (∀ f, mapFind m t = some f → r = some f) ∧
      (mapFind m t = none → ∀ x, r = some x →
        ∃ pre k c post, m = pre ++ (k, c) :: post ∧ c.isContainerValid = true ∧
          (∀ q ∈ pre, q.1 < k) ∧ (∀ q ∈ post, k < q.1) ∧
          getDataFieldHelper t [] ((d + 1) % UINT32_RANGE) c.containerMapGet
            = .value (some x) ∧
          ∀ q ∈ pre, q.2.isContainerValid = true →
            getDataFieldHelper t [] ((d + 1) % UINT32_RANGE) q.2.containerMapGet
              = .value none) := by
  have hreach : ∀ x, r = some x → ∃ m', Reachable m m' ∧ mapFind m' t = some x := by
    intro x hx
    subst hx
    exact getDataFieldHelper_wildcard_reach t _ m d x (le_refl _) hr
  refine ⟨?_, hreach, ?_, ?_⟩
  · constructor
    · intro hsome
      obtain ⟨x, hx⟩ := Option.isSome_iff_exists.mp hsome
      obtain ⟨m', hm', hkey⟩ := hreach x hx
      refine Or.inr ⟨m', hm', ?_⟩
      rw [← mapFind_isSome_iff, hkey]; rfl
    · intro h
      have h' : ∃ m', Reachable m m' ∧ t ∈ mapKeys m' := by
        rcases h with h | h
        · exact ⟨m, Reachable.here m, h⟩
        · exact h
      obtain ⟨m', hm', hkey⟩ := h'
      cases r with
      | some x => rfl
      | none => exact absurd hkey (getDataFieldHelper_wildcard_none t hm' d hr)
  · intro f hf
    rw [getDataFieldHelper_of_find [] d hf] at hr
    injection hr with hr
    exact hr.symm
  · intro hnone x hx
    subst hx
    rw [getDataFieldHelper_of_not_find [] d hnone] at hr
    obtain ⟨pre, k, c, post, hm, hc, hsub, hpre⟩ := helperLoop_wildcard_some t d x m hr
    rw [hm] at hOk
    have hord := MapOk_split hOk
    exact ⟨pre, k, c, post, hm, hc, hord.1, hord.2, hsub, hpre⟩

/-- At the last value of the 32-bit depth counter the loop has no defined
result: `depth + 1` wraps to `0`, the size test
`container_id_vec.size() >= depth + 1` passes for the empty path, and
`container_id_vec[4294967295]` is read outside the empty vector.  No call of
`getDataField` reaches this depth on a tree of fewer than `2^32` levels. -/
theorem getDataFieldHelper_wrapped_depth :
    getDataFieldHelper 2 [] 4294967295 [(1, leafField 1 "a")] = .undefined :=
  rfl

/-- C1: the id-based search with the empty path.  At every depth the code
reaches, entering at depth `0` and deepening by one per nesting level so that
`depth + nestingDepth m < 2^32`, the search returns a result `r`; and whenever
the search returns a result `r`, at any depth: `r` is non-null iff the target
is a key of `m` or of a nested map reachable from `m` through valid container
fields (and a non-null `r` is the entry stored under the target in such a
map); `r` is `m`'s own entry when `m` has one; otherwise a non-null `r` is
the result of the search inside a valid container `c` of `m` such that every
valid container before `c`, all of smaller id, has a failing sub-search. -/
theorem C1_wildcard_search (t d : Nat) (m : List (Nat × TableDataField)) (hOk : MapOk m) :
    (d + nestingDepth m < UINT32_RANGE →
      ∃ r, getDataFieldHelper t [] d m = .value r ∧
        (r.isSome = true ↔ (t ∈ mapKeys m ∨ ∃ m', Reachable m m' ∧ t ∈ mapKeys m')) ∧
        (∀ x, r = some x → ∃ m', Reachable m m' ∧ mapFind m' t = some x) ∧
        (∀ f, mapFind m t = some f → r = some f) ∧
        (mapFind m t = none → ∀ x, r = some x →
          ∃ pre k c post, m = pre ++ (k, c) :: post ∧ c.isContainerValid = true ∧
            (∀ q ∈ pre, q.1 < k) ∧ (∀ q ∈ post, k < q.1) ∧
            getDataFieldHelper t [] (d + 1) c.containerMapGet = .value (some x) ∧
            ∀ q ∈ pre, q.2.isContainerValid = true →
              getDataFieldHelper t [] (d + 1) q.2.containerMapGet = .value none)) ∧
      (∀ r, getDataFieldHelper t [] d m = .value r →
        (r.isSome = true ↔ (t ∈ mapKeys m ∨ ∃ m', Reachable m m' ∧ t ∈ mapKeys m')) ∧
        (∀ x, r = some x → ∃ m', Reachable m m' ∧ mapFind m' t = some x) ∧
        (∀ f, mapFind m t = some f → r = some f) ∧
        (mapFind m t = none → ∀ x, r = some x →
          ∃ pre k c post, m = pre ++ (k, c) :: post ∧ c.isContainerValid = true ∧
            (∀ q ∈ pre, q.1 < k) ∧ (∀ q ∈ post, k < q.1) ∧
            getDataFieldHelper t [] ((d + 1) % UINT32_RANGE) c.containerMapGet
              = .value (some x) ∧
            ∀ q ∈ pre, q.2.isContainerValid = true →
              getDataFieldHelper t [] ((d + 1) % UINT32_RANGE) q.2.containerMapGet
                = .value none)) ∧
      getDataFieldHelper 20 [] 4294967294 exampleCommon
        = .value (some (leafField 20 "X")) := by
  refine ⟨?_, fun r hr => getDataFieldHelper_wildcard_value t d m hOk r hr, rfl⟩
  intro hd
  obtain ⟨r, hr⟩ := getDataFieldHelper_defined t _ m d (le_refl _) hd
  obtain ⟨h1, h2, h3, h4⟩ := getDataFieldHelper_wildcard_value t d m hOk r hr
  refine ⟨r, hr, h1, h2, h3, ?_⟩
  intro hnone x hx
  obtain ⟨pre, k, c, post, hm, hrest⟩ := h4 hnone x hx
  have hne : m ≠ [] := by rw [hm]; simp
  have hpos := nestingDepth_pos_of_ne_nil hne
  have hd1 : d + 1 < UINT32_RANGE := by omega
  rw [Nat.mod_eq_of_lt hd1] at hrest
  exact ⟨pre, k, c, post, hm, hrest⟩

/-- Witness of C1: target `20` from depth `0` in the map holding container
`10`, which holds container `30`, which holds field `20`. -/
theorem C1_wildcard_search_witness :
    MapOk exampleNested ∧ 0 + nestingDepth exampleNested < UINT32_RANGE ∧
      ∃ r, getDataFieldHelper 20 [] 0 exampleNested = .value r ∧
        (r.isSome = true ↔
          (20 ∈ mapKeys exampleNested ∨
            ∃ m', Reachable exampleNested m' ∧ 20 ∈ mapKeys m')) :=
  ⟨by decide, by decide,
    ((C1_wildcard_search 20 0 exampleNested (by decide)).1 (by decide)).imp
      (fun _ h => ⟨h.1, h.2.1⟩)⟩

/-- C2: with a path that has an entry at depth `d`, on a map that does not
hold the target itself, the id-based search descends only into the entry
stored under `path[d]`: the result is the search inside that entry's nested
map at depth `d + 1` (computed in `uint32_t`, hence literally `d + 1` when
`d + 1 < 2^32`) when that entry exists and is a valid container, and null
otherwise; with container `C` (id 10) holding `X` (id 20), path `[10]` finds
`X` and path `[11]` finds nothing. -/
theorem C2_path_constrains (t : Nat) (p : List Nat) (d : Nat)
    (m : List (Nat × TableDataField)) (hd : d < p.length) (hOk : MapOk m)
    (hnot : mapFind m t = none) :
    getDataFieldHelper t p d m =
        (match mapFind m p[d] with
         | some f =>
           if f.isContainerValid then
             getDataFieldHelper t p ((d + 1) % UINT32_RANGE) f.containerMapGet
           else .value none
         | none => .value none) ∧
      (d + 1 < UINT32_RANGE →
        getDataFieldHelper t p d m =
          match mapFind m p[d] with
          | some f =>
            if f.isContainerValid then getDataFieldHelper t p (d + 1) f.containerMapGet
            else .value none
          | none => .value none) ∧
      getDataFieldHelper 20 [10] 0 exampleCommon = .value (some (leafField 20 "X")) ∧
      getDataFieldHelper 20 [11] 0 exampleCommon = .value none := by
  have h := helperLoop_path t hd m hOk
  rw [← getDataFieldHelper_of_not_find p d hnot] at h
  refine ⟨h, ?_, rfl, rfl⟩
  intro hd1
  rw [Nat.mod_eq_of_lt hd1] at h
  exact h

/-- Witness of C2: target `20` with path `[10]` at depth `0` in the common map
of the spec's example. -/
theorem C2_path_constrains_witness :
    getDataFieldHelper 20 [10] 0 exampleCommon =
      getDataFieldHelper 20 [10] 1 [(20, leafField 20 "X")] :=
  (C2_path_constrains 20 [10] 0 exampleCommon (by decide) (by decide) rfl).2.1 (by decide)

/-- C3 as stated fails: with container `10` holding container `30` holding
field `20`, the search for `20` with path `[10]` returns null; at depth `1`,
where the path `[10]` is exhausted, the search in the map holding container
`30` returns null although the search with the empty path finds field `20`. -/
theorem C3_counterexample :
    getDataFieldHelper 20 [10] 0 exampleNested = .value none ∧
      [10].length ≤ 1 ∧
      getDataFieldHelper 20 [10] 1 exampleInner = .value none ∧
      getDataFieldHelper 20 [] 1 exampleInner = .value (some (leafField 20 "X")) :=
  ⟨rfl, by decide, rfl, rfl⟩

/-- C3 amended: with a non-empty path that is exhausted (`depth ≥ length`,
and `depth + 1` not wrapping), the search enters no container at all: it
returns the current map's own entry for the target, and null when there is
none; only the empty path is a wildcard: with container `10` holding
container `30` holding field `20`, the path `[10]` finds nothing and the empty
path finds field `20`. -/
theorem C3_exhausted_path_no_descent (t : Nat) (p : List Nat) (d : Nat)
    (m : List (Nat × TableDataField)) (hp : p ≠ []) (hlen : p.length ≤ d)
    (hd : d + 1 < UINT32_RANGE) :
    getDataFieldHelper t p d m = .value (mapFind m t) ∧
      getDataFieldHelper 20 [10] 0 exampleNested = .value none ∧
      getDataFieldHelper 20 [] 0 exampleNested = .value (some (leafField 20 "X")) := by
  refine ⟨?_, rfl, rfl⟩
  cases hfind : mapFind m t with
  | some f => exact getDataFieldHelper_of_find p d hfind
  | none =>
    rw [getDataFieldHelper_of_not_find p d hfind]
    exact helperLoop_exhausted t hp hlen hd m

/-- Witness of the amended C3: path `[10]` at depth `1` in the map holding
container `30`. -/
theorem C3_exhausted_path_no_descent_witness :
    getDataFieldHelper 20 [10] 1 exampleInner = .value (mapFind exampleInner 20) :=
  (C3_exhausted_path_no_descent 20 [10] 1 exampleInner (by decide) (by decide)
    (by decide)).1

/-- C4: when the target id (name) is a key of the current map, the id (name)
variant of the search returns exactly that entry, for every path and every
depth; the loop over the containers is not entered, so the result is the same
also at depth `2^32 - 1`, where a loop iteration would read outside the
path. -/
theorem C4_direct_hit (p : List Nat) (d : Nat) :
    (∀ (t : Nat) (m : List (Nat × TableDataField)) (f : TableDataField),
        mapFind m t = some f →
          getDataFieldHelper t p d m = .value (some f) ∧
          getDataFieldHelper t p 4294967295 m = .value (some f)) ∧
      (∀ (n : String) (mn : List (String × TableDataField)) (g : TableDataField),
        mapFind mn n = some g →
          getDataFieldHelperName n p d mn = .value (some g) ∧
          getDataFieldHelperName n p 4294967295 mn = .value (some g)) :=
  ⟨fun _ _ _ hf => ⟨getDataFieldHelper_of_find p d hf, getDataFieldHelper_of_find p _ hf⟩,
    fun _ _ _ hg =>
      ⟨getDataFieldHelperName_of_find p d hg, getDataFieldHelperName_of_find p _ hg⟩⟩

/-- Witness of C4: the container `10` itself is returned for target `10`
(name `"C"`) under the path `[11]`, which names another container. -/
theorem C4_direct_hit_witness :
    getDataFieldHelper 10 [11] 0 exampleCommon
        = .value (some (containerField 10 "C" [(20, leafField 20 "X")]
            [("X", leafField 20 "X")])) ∧
      getDataFieldHelperName "C" [11] 0 exampleCommonNames
        = .value (some (containerField 10 "C" [(20, leafField 20 "X")]
            [("X", leafField 20 "X")])) :=
  ⟨((C4_direct_hit [11] 0).1 10 exampleCommon _ rfl).1,
    ((C4_direct_hit [11] 0).2 "C" exampleCommonNames _ rfl).1⟩

/-! ## The flat queries of `TableInfo` -/

theorem dataFieldIdListGet_zero (T : TableInfo) :
    dataFieldIdListGet T 0 = stdSort (mapKeys T.table_data_map_) := by
  simp [dataFieldIdListGet]

theorem dataFieldIdListGet_known (T : TableInfo) (a : Nat) (act : ActionInfo)
    (ha : a ≠ 0) (h : mapFind T.table_action_map_ a = some act) :
    dataFieldIdListGet T a
      = stdSort (mapKeys act.data_fields_ ++ mapKeys T.table_data_map_) := by
  simp [dataFieldIdListGet, ha, h]

/-- C5: for a non-zero action id that is a key of the action map,
`dataFieldIdListGet(actionId)` is the ascending sort of the action's data
field ids followed by the common data field ids: it is non-decreasing, a
permutation of that concatenation, and an id present in both maps occurs
exactly twice; action fields `{5, 6}` with common fields `{5, 7}` give
`[5, 5, 6, 7]`. -/
theorem C5_dataFieldIdListGet_action (T : TableInfo) (a : Nat) (act : ActionInfo)
    (ha : a ≠ 0) (hact : mapFind T.table_action_map_ a = some act)
    (hOkA : MapOk act.data_fields_) (hOkC : MapOk T.table_data_map_) :
    dataFieldIdListGet T a
        = stdSort (mapKeys act.data_fields_ ++ mapKeys T.table_data_map_) ∧
      (dataFieldIdListGet T a).Sorted (· ≤ ·) ∧
      (dataFieldIdListGet T a).Perm (mapKeys act.data_fields_ ++ mapKeys T.table_data_map_) ∧
      (∀ x, x ∈ mapKeys act.data_fields_ → x ∈ mapKeys T.table_data_map_ →
        (dataFieldIdListGet T a).count x = 2) ∧
      dataFieldIdListGet exampleTable 1 = [5, 5, 6, 7] := by
  have hEq := dataFieldIdListGet_known T a act ha hact
  refine ⟨hEq, ?_, ?_, ?_, by decide⟩
  · rw [hEq]; exact stdSort_sorted _
  · rw [hEq]; exact stdSort_perm _
  · intro x hxA hxC
    rw [hEq, (stdSort_perm _).count_eq, List.count_append,
      List.count_eq_one_of_mem (List.Sorted.nodup hOkA) hxA,
      List.count_eq_one_of_mem (List.Sorted.nodup hOkC) hxC]

/-- Witness of C5 on the example table of the spec. -/
theorem C5_dataFieldIdListGet_action_witness :
    dataFieldIdListGet exampleTable 1 = stdSort ([5, 6] ++ [5, 7]) ∧
      (dataFieldIdListGet exampleTable 1).count 5 = 2 :=
  have h := C5_dataFieldIdListGet_action exampleTable 1
    { id := 1, name := "a",
      data_fields_ := [(5, leafField 5 "action5"), (6, leafField 6 "action6")],
      data_fields_names_ := [("action5", leafField 5 "action5"),
                             ("action6", leafField 6 "action6")] }
    (by decide) rfl (by decide) (by decide)
  ⟨h.1, h.2.2.2.1 5 (by decide) (by decide)⟩

/-- C6 as stated fails: on the example table (action fields `{5, 6}`, common
fields `{5, 7}`) `dataFieldIdListGet(0)` is `[5, 7]`, not `[7]`. -/
theorem C6_counterexample :
    dataFieldIdListGet exampleTable 0 = [5, 7] ∧ dataFieldIdListGet exampleTable 0 ≠ [7] := by
  decide

/-- C6 amended: on every table whose common data field ids are `{5, 7}`,
whatever its actions, `dataFieldIdListGet(0)` returns exactly `[5, 7]`. -/
theorem C6_dataFieldIdListGet_zero_example (T : TableInfo)
    (hC : mapKeys T.table_data_map_ = [5, 7]) :
    dataFieldIdListGet T 0 = [5, 7] := by
  rw [dataFieldIdListGet_zero, hC]; decide

/-- Witness of the amended C6 on the example table of the spec. -/
theorem C6_dataFieldIdListGet_zero_example_witness :
    dataFieldIdListGet exampleTable 0 = [5, 7] :=
  C6_dataFieldIdListGet_zero_example exampleTable (by decide)

/-- C7: for a non-zero action id that is not a key of the action map,
`dataFieldIdListGet(actionId)` returns a value, the same sequence as
`dataFieldIdListGet(0)`: the common data field ids in ascending order and
nothing else (no id is taken from any action); `dataFieldIdListGet(999)` on the
example table is `[5, 7]`. -/
theorem C7_dataFieldIdListGet_unknown_action (T : TableInfo) (a : Nat)
    (ha : a ≠ 0) (hact : mapFind T.table_action_map_ a = none) :
    dataFieldIdListGet T a = dataFieldIdListGet T 0 ∧
      (dataFieldIdListGet T a).Sorted (· ≤ ·) ∧
      (dataFieldIdListGet T a).Perm (mapKeys T.table_data_map_) ∧
      (MapOk T.table_data_map_ → dataFieldIdListGet T a = mapKeys T.table_data_map_) ∧
      dataFieldIdListGet exampleTable 999 = [5, 7] := by
  have hEq : dataFieldIdListGet T a = stdSort (mapKeys T.table_data_map_) := by
    simp [dataFieldIdListGet, ha, hact]
  refine ⟨by rw [hEq, dataFieldIdListGet_zero], ?_, ?_, ?_, by decide⟩
  · rw [hEq]; exact stdSort_sorted _
  · rw [hEq]; exact stdSort_perm _
  · intro hOk
    rw [hEq]; exact stdSort_of_ascending hOk

/-- Witness of C7: action id `999` on the example table. -/
theorem C7_dataFieldIdListGet_unknown_action_witness :
    dataFieldIdListGet exampleTable 999 = dataFieldIdListGet exampleTable 0 :=
  (C7_dataFieldIdListGet_unknown_action exampleTable 999 (by decide) rfl).1

theorem dataFieldGet_zero (T : TableInfo) (f : Nat) :
    dataFieldGet T f 0 = mapFind T.table_data_map_ f := by
  simp [dataFieldGet]

/-- C8: for a non-zero action id that is a key of the action map and whose
data field map contains the field id, `dataFieldGet(f, a)` returns the
action's entry for `f`, whatever the common map holds for `f`; on the example
table `dataFieldGet(5, 1)` is the action's field 5, which is not the common
field 5. -/
theorem C8_dataFieldGet_action_first (T : TableInfo) (f a : Nat) (act : ActionInfo)
    (x : DataFieldInfo) (ha : a ≠ 0) (hact : mapFind T.table_action_map_ a = some act)
    (hf : mapFind act.data_fields_ f = some x) :
    dataFieldGet T f a = some x ∧
      dataFieldGet exampleTable 5 1 = some (leafField 5 "action5") ∧
      mapFind exampleTable.table_data_map_ 5 = some (leafField 5 "common5") ∧
      (leafField 5 "action5").nameGet ≠ (leafField 5 "common5").nameGet := by
  refine ⟨?_, rfl, rfl, by decide⟩
  simp [dataFieldGet, ha, hact, hf]

/-- Witness of C8: field `5` of action `1` on the example table. -/
theorem C8_dataFieldGet_action_first_witness :
    dataFieldGet exampleTable 5 1 = some (leafField 5 "action5") :=
  (C8_dataFieldGet_action_first exampleTable 5 1
    { id := 1, name := "a",
      data_fields_ := [(5, leafField 5 "action5"), (6, leafField 6 "action6")],
      data_fields_names_ := [("action5", leafField 5 "action5"),
                             ("action6", leafField 6 "action6")] }
    (leafField 5 "action5") (by decide) rfl rfl).1

/-- C9: `dataFieldGet(f, a)` is the plain lookup of `f` in the common map
whenever `a` is `0`, or `a` is not a key of the action map, or action `a` has
no data field `f`; the one-argument `dataFieldGet(f)` is always the common
lookup, also when an action is stored under id `0`; and `dataFieldGet(f, a)`
is null exactly when the common map has no `f` and the selected action (a
non-zero `a` that is a key of the action map), if any, has no `f` either. -/
theorem C9_dataFieldGet_fallback (T : TableInfo) (f a : Nat) :
    ((a = 0 ∨ mapFind T.table_action_map_ a = none ∨
        ∃ act, mapFind T.table_action_map_ a = some act ∧ mapFind act.data_fields_ f = none) →
      dataFieldGet T f a = mapFind T.table_data_map_ f) ∧
    dataFieldGetCommon T f = mapFind T.table_data_map_ f ∧
    (dataFieldGet T f a = none ↔
      mapFind T.table_data_map_ f = none ∧
        ∀ act, a ≠ 0 → mapFind T.table_action_map_ a = some act →
          mapFind act.data_fields_ f = none) ∧
    dataFieldGetCommon exampleZeroAction 5 = some (leafField 5 "common5") ∧
    dataFieldGetCommon exampleZeroAction 6 = none := by
  refine ⟨?_, dataFieldGet_zero T f, ?_, rfl, rfl⟩
  · rintro (h0 | hnone | ⟨act, hact, hf⟩)
    · subst h0; exact dataFieldGet_zero T f
    · by_cases ha : a = 0
      · subst ha; exact dataFieldGet_zero T f
      · simp [dataFieldGet, ha, hnone]
    · by_cases ha : a = 0
      · subst ha; exact dataFieldGet_zero T f
      · simp [dataFieldGet, ha, hact, hf]
  · by_cases ha : a = 0
    · subst ha
      rw [dataFieldGet_zero]
      constructor
      · intro h; exact ⟨h, fun _ h0 => absurd rfl h0⟩
      · intro h; exact h.1
    · cases hact : mapFind T.table_action_map_ a with
      | none => simp [dataFieldGet, ha, hact]
      | some act =>
        cases hf : mapFind act.data_fields_ f with
        | none => simp [dataFieldGet, ha, hact, hf]
        | some x => simp [dataFieldGet, ha, hact, hf]

/-- Witness of C9: field `7` is not in action `1` of the example table, so the
lookup falls back to the common map. -/
theorem C9_dataFieldGet_fallback_witness :
    dataFieldGet exampleTable 7 1 = mapFind exampleTable.table_data_map_ 7 ∧
      dataFieldGet exampleTable 7 1 = some (leafField 7 "common7") :=
  ⟨(C9_dataFieldGet_fallback exampleTable 7 1).1 (Or.inr (Or.inr ⟨_, rfl, rfl⟩)), rfl⟩

/-- C10: the no-argument `dataFieldIdListGet()` equals `dataFieldIdListGet(0)`;
on a table whose common map satisfies the `std::map` invariant that sequence
is the common map's key sequence, strictly ascending, with exactly the common
keys as members; it does not depend on the action map, also not on an action
stored under id `0`. -/
theorem C10_dataFieldIdListGet_no_action (T : TableInfo) (hOk : MapOk T.table_data_map_) :
    dataFieldIdListGetAll T = dataFieldIdListGet T 0 ∧
      dataFieldIdListGet T 0 = mapKeys T.table_data_map_ ∧
      (dataFieldIdListGet T 0).Sorted (· < ·) ∧
      (∀ x, x ∈ dataFieldIdListGet T 0 ↔ x ∈ mapKeys T.table_data_map_) ∧
      (∀ T' : TableInfo, T'.table_data_map_ = T.table_data_map_ →
        dataFieldIdListGet T' 0 = dataFieldIdListGet T 0) ∧
      dataFieldIdListGetAll exampleZeroAction = [5] := by
  have hEq : dataFieldIdListGet T 0 = mapKeys T.table_data_map_ := by
    rw [dataFieldIdListGet_zero]; exact stdSort_of_ascending hOk
  refine ⟨rfl, hEq, ?_, ?_, ?_, by decide⟩
  · rw [hEq]; exact hOk
  · intro x; rw [hEq]
  · intro T' hT'
    rw [dataFieldIdListGet_zero, dataFieldIdListGet_zero, hT']

/-- Witness of C10 on the example table of the spec. -/
theorem C10_dataFieldIdListGet_no_action_witness :
    dataFieldIdListGetAll exampleTable = dataFieldIdListGet exampleTable 0 ∧
      dataFieldIdListGet exampleTable 0 = [5, 7] :=
  have h := C10_dataFieldIdListGet_no_action exampleTable (by decide)
  ⟨h.1, h.2.1⟩

/-! ## Key fields -/

theorem keyFieldIdListGet_eq (T : TableInfo) (hOk : MapOk T.table_key_map_) :
    keyFieldIdListGet T = mapKeys T.table_key_map_ :=
  stdSort_of_ascending hOk

theorem mem_keyFieldIdListGet (T : TableInfo) (x : Nat) :
    x ∈ keyFieldIdListGet T ↔ x ∈ mapKeys T.table_key_map_ :=
  (stdSort_perm _).mem_iff

/-- C11: on a table whose key map satisfies the `std::map` invariant,
`keyFieldIdListGet()` is strictly ascending and free of duplicates, its members
are exactly the keys of the key field map, and every key occurs once. -/
theorem C11_keyFieldIdListGet (T : TableInfo) (hOk : MapOk T.table_key_map_) :
    (keyFieldIdListGet T).Sorted (· < ·) ∧
      (keyFieldIdListGet T).Nodup ∧
      (∀ x, x ∈ keyFieldIdListGet T ↔ x ∈ mapKeys T.table_key_map_) ∧
      (∀ x, x ∈ mapKeys T.table_key_map_ → (keyFieldIdListGet T).count x = 1) ∧
      keyFieldIdListGet T = mapKeys T.table_key_map_ := by
  have hEq := keyFieldIdListGet_eq T hOk
  have hS : (keyFieldIdListGet T).Sorted (· < ·) := by rw [hEq]; exact hOk
  refine ⟨hS, hS.nodup, mem_keyFieldIdListGet T, ?_, hEq⟩
  intro x hx
  exact List.count_eq_one_of_mem hS.nodup ((mem_keyFieldIdListGet T x).mpr hx)

/-- Witness of C11 on the example key table of the spec. -/
theorem C11_keyFieldIdListGet_witness :
    (keyFieldIdListGet exampleKeyTable).Sorted (· < ·) ∧
      keyFieldIdListGet exampleKeyTable = [1, 2] :=
  have h := C11_keyFieldIdListGet exampleKeyTable (by decide)
  ⟨h.1, h.2.2.2.2⟩

/-- C12: on a table whose key map satisfies the `std::map` invariant and
stores each key field under the field's own id, `keyFieldIdGet(name)` returns,
for a name borne by some key field, the id of a field of that name that is
smallest among the ids of the fields of that name, and the sentinel `0` for a
name that no key field bears; names are compared exactly:
`keyFieldIdGet("port") = 2`, `keyFieldIdGet("bogus") = 0` and
`keyFieldIdGet("Port") = 0` on the key fields `("ipv4_addr", 1)`,
`("port", 2)`. -/
theorem C12_keyFieldIdGet (T : TableInfo) (hOk : MapOk T.table_key_map_)
    (hOwn : ∀ q ∈ T.table_key_map_, q.1 = q.2.idGet) :
    (∀ name, (∃ q ∈ T.table_key_map_, q.2.nameGet = name) →
        ∃ q ∈ T.table_key_map_, q.2.nameGet = name ∧ keyFieldIdGet T name = q.2.idGet ∧
          ∀ q' ∈ T.table_key_map_, q'.2.nameGet = name → q.2.idGet ≤ q'.2.idGet) ∧
      (∀ name, (∀ q ∈ T.table_key_map_, q.2.nameGet ≠ name) → keyFieldIdGet T name = 0) ∧
      keyFieldIdGet exampleKeyTable "port" = 2 ∧
      keyFieldIdGet exampleKeyTable "bogus" = 0 ∧
      keyFieldIdGet exampleKeyTable "Port" = 0 := by
  refine ⟨?_, ?_, by decide, by decide, by decide⟩
  · rintro name ⟨q0, hq0, hname0⟩
    cases hfind : T.table_key_map_.find? (fun map_item => name == map_item.2.nameGet) with
    | none =>
      have h := List.find?_eq_none.mp hfind q0 hq0
      simp [hname0] at h
    | some b =>
      have hb := List.find?_eq_some.mp hfind
      obtain ⟨hpb, as, bs, hsplit, has⟩ := hb
      have hbname : b.2.nameGet = name := by
        have h := hpb
        simp only [beq_iff_eq] at h
        exact h.symm
      refine ⟨b, ?_, hbname, ?_, ?_⟩
      · rw [hsplit]; simp
      · simp [keyFieldIdGet, hfind]
      · intro q' hq' hname'
        have hOk' := hOk
        rw [hsplit] at hOk' hq'
        have hord := MapOk_split hOk'
        have hbmem : b ∈ T.table_key_map_ := by rw [hsplit]; simp
        have hq'mem : q' ∈ T.table_key_map_ := by rw [hsplit]; exact hq'
        rcases List.mem_append.mp hq' with h | h
        · have := has q' h
          simp [hname'] at this
        · rcases List.mem_cons.mp h with h | h
          · rw [h]
          · have hlt := hord.2 q' h
            rw [hOwn b hbmem, hOwn q' hq'mem] at hlt
            exact Nat.le_of_lt hlt
  · intro name hnone
    have hfind : T.table_key_map_.find? (fun map_item => name == map_item.2.nameGet) = none := by
      apply List.find?_eq_none.mpr
      intro q hq
      have h := hnone q hq
      simp only [beq_iff_eq]
      exact fun e => h e.symm
    simp [keyFieldIdGet, hfind]

/-- Witness of C12 on the example key table of the spec. -/
theorem C12_keyFieldIdGet_witness :
    keyFieldIdGet exampleKeyTable "bogus" = 0 :=
  (C12_keyFieldIdGet exampleKeyTable (by decide) (by decide)).2.1 "bogus" (by decide)

/-- C13: on a table whose key map stores each key field under the field's own
id, `keyFieldGet(id)` returns, for every id listed by `keyFieldIdListGet()`, a
key field whose id is the queried id, and null for every id that is not
listed; so it is non-null exactly for the listed ids. -/
theorem C13_keyFieldGet_roundtrip (T : TableInfo)
    (hOwn : ∀ q ∈ T.table_key_map_, q.1 = q.2.idGet) :
    (∀ id ∈ keyFieldIdListGet T, ∃ f, keyFieldGet T id = some f ∧ f.idGet = id) ∧
      (∀ id, id ∉ keyFieldIdListGet T → keyFieldGet T id = none) ∧
      (∀ id, (keyFieldGet T id).isSome = true ↔ id ∈ keyFieldIdListGet T) := by
  have hiff : ∀ id, (keyFieldGet T id).isSome = true ↔ id ∈ keyFieldIdListGet T := by
    intro id
    rw [mem_keyFieldIdListGet]
    exact mapFind_isSome_iff _ _
  refine ⟨?_, ?_, hiff⟩
  · intro id hid
    obtain ⟨f, hf⟩ := Option.isSome_iff_exists.mp ((hiff id).mpr hid)
    refine ⟨f, hf, ?_⟩
    have hmem := mapFind_some_mem hf
    exact (hOwn _ hmem).symm
  · intro id hid
    cases hf : keyFieldGet T id with
    | none => rfl
    | some f =>
      exact absurd ((hiff id).mp (by rw [hf]; rfl)) hid

/-- Witness of C13 on the example key table of the spec. -/
theorem C13_keyFieldGet_roundtrip_witness :
    (∃ f, keyFieldGet exampleKeyTable 2 = some f ∧ f.idGet = 2) ∧
      keyFieldGet exampleKeyTable 3 = none :=
  have h := C13_keyFieldGet_roundtrip exampleKeyTable (by decide)
  ⟨h.1 2 (by decide), h.2.1 3 (by decide)⟩

/-- C20: the sentinel `0` of `keyFieldIdGet` signals absence reliably only
when `0` is no key field id: on every table without a key field of id `0`,
`keyFieldIdGet(name) = 0` holds iff no key field bears the name; and on the
table whose key field `"vrf"` has id `0`, `keyFieldIdGet("vrf")` is `0`
although the name is present. -/
theorem C20_keyFieldIdGet_sentinel :
    (∀ (T : TableInfo), (∀ q ∈ T.table_key_map_, q.2.idGet ≠ 0) →
        ∀ name, keyFieldIdGet T name = 0 ↔ ∀ q ∈ T.table_key_map_, q.2.nameGet ≠ name) ∧
      ((∃ q ∈ exampleKeyZero.table_key_map_, q.2.idGet = 0) ∧
        (∃ q ∈ exampleKeyZero.table_key_map_, q.2.nameGet = "vrf") ∧
        keyFieldIdGet exampleKeyZero "vrf" = 0) := by
  refine ⟨?_, ⟨⟨_, List.mem_cons_self _ _, rfl⟩, ⟨_, List.mem_cons_self _ _, rfl⟩, by decide⟩⟩
  intro T hne name
  cases hfind : T.table_key_map_.find? (fun map_item => name == map_item.2.nameGet) with
  | none =>
    have h := List.find?_eq_none.mp hfind
    constructor
    · intro _ q hq hname
      have := h q hq
      simp [hname] at this
    · intro _
      simp [keyFieldIdGet, hfind]
  | some b =>
    have hbmem := List.mem_of_find?_eq_some hfind
    have hpb := List.find?_some hfind
    have hbname : b.2.nameGet = name := by
      have h := hpb
      simp only [beq_iff_eq] at h
      exact h.symm
    constructor
    · intro h0
      simp [keyFieldIdGet, hfind] at h0
      exact absurd h0 (hne b hbmem)
    · intro hnone
      exact absurd hbname (hnone b hbmem)

/-- Witness of C20: on the example key table (ids `1` and `2`) the sentinel is
returned for the absent name `"bogus"`. -/
theorem C20_keyFieldIdGet_sentinel_witness :
    keyFieldIdGet exampleKeyTable "bogus" = 0 :=
  (C20_keyFieldIdGet_sentinel.1 exampleKeyTable (by decide) "bogus").mpr (by decide)

/-! ## Annotations -/

theorem Annotation.less_iff (a b : Annotation) :
    a.less b = true ↔ a.full_name_ < b.full_name_ := by
  simp [ Annotation.less]

theorem Annotation.equals_iff (a b : Annotation) :
    a.equals b = true ↔ a.full_name_ = b.full_name_ := by
  simp [ Annotation.equals]

/-- C14: `operator<` of `Annotation` is a strict total order on the full
names that is consistent with `operator==`: it is irreflexive and transitive,
for two annotations exactly one of `a < b`, `a == b`, `b < a` holds, `a == b`
holds iff the full names are the same string, `a == rawString` holds iff the
full name of `a` is that string, and `fullNameGet` reports success and yields
the full name; `"@abc"` sorts before `"@abd"`. -/
theorem C14_annotation_order :
    (∀ a : Annotation, a.less a = false) ∧
      (∀ a b c : Annotation, a.less b = true → b.less c = true → a.less c = true) ∧
      (∀ a b : Annotation,
        (a.less b = true ∧ a.equals b = false ∧ b.less a = false) ∨
        (a.less b = false ∧ a.equals b = true ∧ b.less a = false) ∨
        (a.less b = false ∧ a.equals b = false ∧ b.less a = true)) ∧
      (∀ a b : Annotation, a.less b = true ↔ a.full_name_ < b.full_name_) ∧
      (∀ a b : Annotation, a.equals b = true ↔ a.full_name_ = b.full_name_) ∧
      (∀ (a : Annotation) (s : String), a.equalsString s = true ↔ a.full_name_ = s) ∧
      (∀ a : Annotation, a.fullNameGet = (tdi_status_t.TDI_SUCCESS, a.full_name_)) ∧
      Annotation.less { full_name_ := "@abc" } { full_name_ := "@abd" } = true := by
  refine ⟨?_, ?_, ?_, Annotation.less_iff, Annotation.equals_iff, ?_, fun _ => rfl, ?_⟩
  · intro a
    simp [ Annotation.less]
  · intro a b c hab hbc
    rw [ Annotation.less_iff] at *
    exact lt_trans hab hbc
  · intro a b
    have hl : ∀ x y : Annotation, x.less y = false ↔ ¬ x.full_name_ < y.full_name_ := by
      intro x y; simp [ Annotation.less]
    have he : a.equals b = false ↔ ¬ a.full_name_ = b.full_name_ := by
      simp [ Annotation.equals]
    rw [ Annotation.less_iff, Annotation.less_iff, Annotation.equals_iff, hl, hl, he]
    rcases lt_trichotomy a.full_name_ b.full_name_ with h | h | h
    · exact Or.inl ⟨h, ne_of_lt h, lt_asymm h⟩
    · exact Or.inr (Or.inl ⟨by rw [h]; exact lt_irrefl _, h, by rw [h]; exact lt_irrefl _⟩)
    · exact Or.inr (Or.inr ⟨lt_asymm h, fun e => ne_of_lt h e.symm, h⟩)
  · intro a s
    simp [ Annotation.equalsString]
  · rw [ Annotation.less_iff, String.lt_iff_toList_lt]
    decide

/-! ## The container search with an arbitrary path -/

theorem pathAdmits_eq_admits (p : List Nat) {d : Nat} (k : Nat) (hd : d + 1 < UINT32_RANGE) :
    pathAdmits p d k = .value (admits p d k) := by
  unfold pathAdmits admits
  rw [Nat.mod_eq_of_lt hd]
  by_cases h : p.length ≥ d + 1
  · have hlt : d < p.length := h
    have hne : p ≠ [] := by
      intro e; subst e; simp at hlt
    simp [h, List.getElem?_eq_getElem hlt, hne]
  · have hge : p.length ≤ d := by omega
    simp [h, List.getElem?_eq_none hge]

theorem helperLoop_defined_path (t : Nat) (p : List Nat) {d : Nat} (hd : d + 1 < UINT32_RANGE)
    (m : List (Nat × TableDataField))
    (hsub : ∀ q ∈ m, q.2.isContainerValid = true →
      ∃ r, getDataFieldHelper t p (d + 1) q.2.containerMapGet = .value r) :
    ∃ r, helperLoop t p d m = .value r := by
  induction m with
  | nil => exact ⟨none, helperLoop_nil t p d⟩
  | cons a rest ih =>
    obtain ⟨k, f⟩ := a
    have ihr := ih (fun q hq hv => hsub q (List.mem_cons_of_mem _ hq) hv)
    rw [helperLoop_cons, pathAdmits_eq_admits p k hd, Nat.mod_eq_of_lt hd]
    by_cases hc : (admits p d k && f.isContainerValid) = true
    · have hv : f.isContainerValid = true := by
        simp only [Bool.and_eq_true] at hc; exact hc.2
      obtain ⟨r, hr⟩ := hsub (k, f) (List.mem_cons_self _ _) hv
      simp only [hc, if_true]
      rw [hr]
      cases r with
      | none => simpa using ihr
      | some x => exact ⟨some x, rfl⟩
    · simpa [hc] using ihr

theorem getDataFieldHelper_defined_path (t : Nat) (p : List Nat) :
    ∀ (n : Nat) (m : List (Nat × TableDataField)) (d : Nat), nestingDepth m ≤ n →
      d + nestingDepth m < UINT32_RANGE → ∃ r, getDataFieldHelper t p d m = .value r := by
  intro n
  induction n with
  | zero =>
    intro m d hn _
    cases m with
    | nil => exact ⟨none, rfl⟩
    | cons a rest =>
      have := nestingDepth_pos_of_ne_nil (List.cons_ne_nil a rest)
      omega
  | succ n ih =>
    intro m d hn hd
    cases hfind : mapFind m t with
    | some f => exact ⟨some f, getDataFieldHelper_of_find p d hfind⟩
    | none =>
      rw [getDataFieldHelper_of_not_find p d hfind]
      cases m with
      | nil => exact ⟨none, helperLoop_nil t p d⟩
      | cons a rest =>
        have hpos := nestingDepth_pos_of_ne_nil (List.cons_ne_nil a rest)
        apply helperLoop_defined_path t p (by omega)
        intro q hq hv
        have hlt := nestingDepth_of_mem hq hv
        exact ih _ _ (by omega) (by omega)

theorem helperLoop_some_path (t : Nat) (p : List Nat) (d : Nat) (x : TableDataField) :
    ∀ m : List (Nat × TableDataField), helperLoop t p d m = .value (some x) →
      ∃ q ∈ m, q.2.isContainerValid = true ∧
        getDataFieldHelper t p ((d + 1) % UINT32_RANGE) q.2.containerMapGet
          = .value (some x) := by
  intro m
  induction m with
  | nil =>
    intro h
    rw [helperLoop_nil] at h
    cases h
  | cons a rest ih =>
    obtain ⟨k, f⟩ := a
    intro h
    rw [helperLoop_cons] at h
    cases hp : pathAdmits p d k with
    | undefined => rw [hp] at h; cases h
    | value c =>
      rw [hp] at h
      simp only at h
      by_cases hc : (c && f.isContainerValid) = true
      · have hv : f.isContainerValid = true := by
          simp only [Bool.and_eq_true] at hc; exact hc.2
        simp only [hc, if_true] at h
        cases hs : getDataFieldHelper t p ((d + 1) % UINT32_RANGE) f.containerMapGet with
        | undefined => rw [hs] at h; cases h
        | value r =>
          rw [hs] at h
          cases r with
          | some y =>
            simp only at h
            have hy : y = x := by
              injection h with h'; injection h'
            subst hy
            exact ⟨(k, f), List.mem_cons_self _ _, hv, hs⟩
          | none =>
            simp only at h
            obtain ⟨q, hq, hqv, hqs⟩ := ih h
            exact ⟨q, List.mem_cons_of_mem _ hq, hqv, hqs⟩
      · simp only [hc, if_false, Bool.false_eq_true] at h
        obtain ⟨q, hq, hqv, hqs⟩ := ih h
        exact ⟨q, List.mem_cons_of_mem _ hq, hqv, hqs⟩

theorem getDataFieldHelper_reach_path (t : Nat) (p : List Nat) :
    ∀ (n : Nat) (m : List (Nat × TableDataField)) (d : Nat) (x : TableDataField),
      nestingDepth m ≤ n → getDataFieldHelper t p d m = .value (some x) →
      ∃ m', Reachable m m' ∧ mapFind m' t = some x := by
  intro n
  induction n with
  | zero =>
    intro m d x hn h
    cases m with
    | nil => cases h
    | cons a rest =>
      have := nestingDepth_pos_of_ne_nil (List.cons_ne_nil a rest)
      omega
  | succ n ih =>
    intro m d x hn h
    cases hfind : mapFind m t with
    | some f =>
      rw [getDataFieldHelper_of_find p d hfind] at h
      have hf : f = x := by
        injection h with h'; injection h'
      subst hf
      exact ⟨m, Reachable.here m, hfind⟩
    | none =>
      rw [getDataFieldHelper_of_not_find p d hfind] at h
      obtain ⟨q, hq, hqv, hqs⟩ := helperLoop_some_path t p d x m h
      have hlt := nestingDepth_of_mem hq hqv
      obtain ⟨m', hreach, hkey⟩ := ih _ _ x (by omega) hqs
      exact ⟨m', Reachable.inside (k := q.1) (f := q.2) hq hqv hreach, hkey⟩

/-! ## The scoped resolver -/

theorem getDataField_of_action {tbl : Table} {f a : Nat} {p : List Nat} {act : ActionInfo}
    {x : TableDataField} (hact : mapFind tbl.action_info_list a = some act)
    (hx : getDataFieldHelper f p 0 act.data_fields_ = .value (some x)) :
    getDataField tbl f a p = .value (tdi_status_t.TDI_SUCCESS, some x) := by
  simp [getDataField, hact, hx]

theorem getDataField_of_common {tbl : Table} {f a : Nat} {p : List Nat}
    (hact : mapFind tbl.action_info_list a = none ∨
      ∃ act, mapFind tbl.action_info_list a = some act ∧
        getDataFieldHelper f p 0 act.data_fields_ = .value none) :
    getDataField tbl f a p =
      match getDataFieldHelper f p 0 tbl.common_data_fields with
      | .undefined => .undefined
      | .value (some x) => .value (tdi_status_t.TDI_SUCCESS, some x)
      | .value none => .value (tdi_status_t.TDI_OBJECT_NOT_FOUND, none) := by
  rcases hact with h | ⟨act, h, hnone⟩
  · simp [getDataField, h]
  · simp [getDataField, h, hnone]

/-- C15: `getDataField(field_id, action_id, path)` returns the field found by
the container search over the data fields of action `action_id` with success
when `action_id` is a key of the action map and that search finds a field,
whatever the common map holds; when the action is unknown or its search finds
nothing, the result is that of the container search over the common data
fields; the call reports `TDI_OBJECT_NOT_FOUND`, with a null field, exactly
when both searches fail, reports success exactly when the returned field is
non-null, and returns whenever the nesting of both maps is below `2^32`. -/
theorem C15_getDataField_scopes (tbl : Table) (f a : Nat) (p : List Nat) :
    (∀ act x, mapFind tbl.action_info_list a = some act →
        getDataFieldHelper f p 0 act.data_fields_ = .value (some x) →
        getDataField tbl f a p = .value (tdi_status_t.TDI_SUCCESS, some x)) ∧
      ((mapFind tbl.action_info_list a = none ∨
          ∃ act, mapFind tbl.action_info_list a = some act ∧
            getDataFieldHelper f p 0 act.data_fields_ = .value none) →
        ∀ r, getDataFieldHelper f p 0 tbl.common_data_fields = .value r →
          getDataField tbl f a p =
            .value (if r.isSome then tdi_status_t.TDI_SUCCESS
                    else tdi_status_t.TDI_OBJECT_NOT_FOUND, r)) ∧
      ((∃ fld, getDataField tbl f a p = .value (tdi_status_t.TDI_OBJECT_NOT_FOUND, fld)) ↔
        ((mapFind tbl.action_info_list a = none ∨
            ∃ act, mapFind tbl.action_info_list a = some act ∧
              getDataFieldHelper f p 0 act.data_fields_ = .value none) ∧
          getDataFieldHelper f p 0 tbl.common_data_fields = .value none)) ∧
      (∀ st fld, getDataField tbl f a p = .value (st, fld) →
        ((st = tdi_status_t.TDI_SUCCESS ↔ fld.isSome = true) ∧
          (st = tdi_status_t.TDI_OBJECT_NOT_FOUND ↔ fld = none))) ∧
      ((∀ act, mapFind tbl.action_info_list a = some act →
          nestingDepth act.data_fields_ < UINT32_RANGE) →
        nestingDepth tbl.common_data_fields < UINT32_RANGE →
        ∃ st fld, getDataField tbl f a p = .value (st, fld)) ∧
      getDataField exampleScoped 20 1 [] =
        .value (tdi_status_t.TDI_SUCCESS, some (leafField 20 "Xa")) ∧
      getDataField exampleScoped 20 2 [] =
        .value (tdi_status_t.TDI_SUCCESS, some (leafField 20 "Xc")) ∧
      getDataField exampleScoped 21 1 [] = .value (tdi_status_t.TDI_OBJECT_NOT_FOUND, none) := by
  have hshape : ∀ st fld, getDataField tbl f a p = .value (st, fld) →
      (st = tdi_status_t.TDI_SUCCESS ∧ fld.isSome = true) ∨
        (st = tdi_status_t.TDI_OBJECT_NOT_FOUND ∧ fld = none ∧
          (mapFind tbl.action_info_list a = none ∨
            ∃ act, mapFind tbl.action_info_list a = some act ∧
              getDataFieldHelper f p 0 act.data_fields_ = .value none) ∧
          getDataFieldHelper f p 0 tbl.common_data_fields = .value none) := by
    intro st fld h
    have hcommon : ∀ (hact : mapFind tbl.action_info_list a = none ∨
        ∃ act, mapFind tbl.action_info_list a = some act ∧
          getDataFieldHelper f p 0 act.data_fields_ = .value none),
        (st = tdi_status_t.TDI_SUCCESS ∧ fld.isSome = true) ∨
        (st = tdi_status_t.TDI_OBJECT_NOT_FOUND ∧ fld = none ∧
          (mapFind tbl.action_info_list a = none ∨
            ∃ act, mapFind tbl.action_info_list a = some act ∧
              getDataFieldHelper f p 0 act.data_fields_ = .value none) ∧
          getDataFieldHelper f p 0 tbl.common_data_fields = .value none) := by
      intro hact
      rw [getDataField_of_common hact] at h
      cases hc : getDataFieldHelper f p 0 tbl.common_data_fields with
      | undefined => rw [hc] at h; cases h
      | value r =>
        rw [hc] at h
        cases r with
        | some x =>
          simp only at h
          injection h with h; injection h with h1 h2
          exact Or.inl ⟨h1.symm, by rw [← h2]; rfl⟩
        | none =>
          simp only at h
          injection h with h; injection h with h1 h2
          exact Or.inr ⟨h1.symm, h2.symm, hact, rfl⟩
    rcases Option.eq_none_or_eq_some (mapFind tbl.action_info_list a) with hact | ⟨act, hact⟩
    · exact hcommon (Or.inl hact)
    · cases hs : getDataFieldHelper f p 0 act.data_fields_ with
      | undefined =>
        simp [getDataField, hact, hs] at h
      | value r =>
        cases r with
        | some x =>
          rw [getDataField_of_action hact hs] at h
          injection h with h; injection h with h1 h2
          exact Or.inl ⟨h1.symm, by rw [← h2]; rfl⟩
        | none => exact hcommon (Or.inr ⟨act, hact, hs⟩)
  refine ⟨fun act x hact hx => getDataField_of_action hact hx, ?_, ?_, ?_, ?_, rfl, rfl, rfl⟩
  · intro hact r hr
    rw [getDataField_of_common hact, hr]
    cases r <;> rfl
  · constructor
    · rintro ⟨fld, h⟩
      rcases hshape _ _ h with ⟨h1, _⟩ | ⟨_, _, hact, hc⟩
      · cases h1
      · exact ⟨hact, hc⟩
    · rintro ⟨hact, hc⟩
      exact ⟨none, by rw [getDataField_of_common hact, hc]⟩
  · intro st fld h
    rcases hshape _ _ h with ⟨h1, h2⟩ | ⟨h1, h2, _, _⟩
    · subst h1
      refine ⟨⟨fun _ => h2, fun _ => rfl⟩, ⟨fun e => (by cases e), fun e => ?_⟩⟩
      rw [e] at h2; cases h2
    · subst h1; subst h2
      exact ⟨⟨fun e => (by cases e), fun e => (by cases e)⟩, ⟨fun _ => rfl, fun _ => rfl⟩⟩
  · intro hA hC
    obtain ⟨rc, hrc⟩ := getDataFieldHelper_defined_path f p _ tbl.common_data_fields 0
      (le_refl _) (by omega)
    have hcommon : ∀ (hact : mapFind tbl.action_info_list a = none ∨
        ∃ act, mapFind tbl.action_info_list a = some act ∧
          getDataFieldHelper f p 0 act.data_fields_ = .value none),
        ∃ st fld, getDataField tbl f a p = .value (st, fld) := by
      intro hact
      rw [getDataField_of_common hact, hrc]
      cases rc with
      | none => exact ⟨_, _, rfl⟩
      | some x => exact ⟨_, _, rfl⟩
    rcases Option.eq_none_or_eq_some (mapFind tbl.action_info_list a) with hact | ⟨act, hact⟩
    · exact hcommon (Or.inl hact)
    · obtain ⟨ra, hra⟩ := getDataFieldHelper_defined_path f p _ act.data_fields_ 0
        (le_refl _) (by have := hA act hact; omega)
      cases ra with
      | none => exact hcommon (Or.inr ⟨act, hact, hra⟩)
      | some x => exact ⟨_, _, getDataField_of_action hact hra⟩

/-- Witness of C15: on the example, action `1` finds field `20` inside its
container although the common map holds a field `20` at its top level. -/
theorem C15_getDataField_scopes_witness :
    getDataField exampleScoped 20 1 [] =
        .value (tdi_status_t.TDI_SUCCESS, some (leafField 20 "Xa")) ∧
      mapFind exampleScoped.common_data_fields 20 = some (leafField 20 "Xc") :=
  ⟨(C15_getDataField_scopes exampleScoped 20 1 []).1 _ (leafField 20 "Xa") rfl rfl, rfl⟩

theorem helperLoop_no_container (t : Nat) (p : List Nat) (m : List (Nat × TableDataField))
    (hno : ∀ q ∈ m, q.2.isContainerValid = false) :
    helperLoop t p 0 m = .value none := by
  induction m with
  | nil => exact helperLoop_nil t p 0
  | cons a rest ih =>
    obtain ⟨k, f⟩ := a
    have hf : f.isContainerValid = false := hno (k, f) (List.mem_cons_self _ _)
    rw [helperLoop_cons, pathAdmits_eq_admits p k (by decide), hf]
    simpa using ih (fun q hq => hno q (List.mem_cons_of_mem _ hq))

theorem getDataFieldHelper_no_container (t : Nat) (p : List Nat)
    (m : List (Nat × TableDataField)) (hno : ∀ q ∈ m, q.2.isContainerValid = false) :
    getDataFieldHelper t p 0 m = .value (mapFind m t) := by
  cases hfind : mapFind m t with
  | some f => exact getDataFieldHelper_of_find p 0 hfind
  | none =>
    rw [getDataFieldHelper_of_not_find p 0 hfind]
    exact helperLoop_no_container t p m hno

/-- C19: on a schema without valid container among the common data fields and
the data fields of the actions, and without an action stored under id `0`,
the path-aware resolver `getDataField(f, a, p)` of the class `Table` returns,
for every field id, action id and path, the field that the flat lookup
`dataFieldGet(f, a)` of the class `TableInfo` returns on the same maps (the
same entry, or null in both). -/
theorem C19_getDataField_flat (tbl : Table) (T : TableInfo)
    (hA : tbl.action_info_list = T.table_action_map_)
    (hC : tbl.common_data_fields = T.table_data_map_)
    (hNoC : ∀ q ∈ T.table_data_map_, q.2.isContainerValid = false)
    (hNoA : ∀ e ∈ T.table_action_map_, ∀ q ∈ e.2.data_fields_, q.2.isContainerValid = false)
    (h0 : mapFind T.table_action_map_ 0 = none) (f a : Nat) (p : List Nat) :
    ∃ st, getDataField tbl f a p = .value (st, dataFieldGet T f a) := by
  have hcommon : getDataFieldHelper f p 0 tbl.common_data_fields
      = .value (mapFind T.table_data_map_ f) := by
    rw [hC]; exact getDataFieldHelper_no_container f p _ hNoC
  rcases Option.eq_none_or_eq_some (mapFind T.table_action_map_ a) with hact | ⟨act, hact⟩
  · have hflat : dataFieldGet T f a = mapFind T.table_data_map_ f := by
      by_cases ha : a = 0
      · subst ha; exact dataFieldGet_zero T f
      · simp [dataFieldGet, ha, hact]
    rw [getDataField_of_common (Or.inl (by rw [hA]; exact hact)), hcommon, hflat]
    cases mapFind T.table_data_map_ f with
    | none => exact ⟨_, rfl⟩
    | some x => exact ⟨_, rfl⟩
  · have ha : a ≠ 0 := by
      intro e; subst e; rw [h0] at hact; cases hact
    have hactT : mapFind tbl.action_info_list a = some act := by rw [hA]; exact hact
    have hsearch : getDataFieldHelper f p 0 act.data_fields_
        = .value (mapFind act.data_fields_ f) :=
      getDataFieldHelper_no_container f p _ (hNoA (a, act) (mapFind_some_mem hact))
    cases hf : mapFind act.data_fields_ f with
    | some x =>
      rw [hf] at hsearch
      have hflat : dataFieldGet T f a = some x := by
        simp [dataFieldGet, ha, hact, hf]
      rw [getDataField_of_action hactT hsearch, hflat]
      exact ⟨_, rfl⟩
    | none =>
      rw [hf] at hsearch
      have hflat : dataFieldGet T f a = mapFind T.table_data_map_ f := by
        simp [dataFieldGet, ha, hact, hf]
      rw [getDataField_of_common (Or.inr ⟨act, hactT, hsearch⟩), hcommon, hflat]
      cases mapFind T.table_data_map_ f with
      | none => exact ⟨_, rfl⟩
      | some x => exact ⟨_, rfl⟩

/-- Witness of C19: the example table of the spec (action fields `{5, 6}`,
common fields `{5, 7}`, no containers), field `5` of action `1` under a path
that names a container. -/
theorem C19_getDataField_flat_witness :
    ∃ st, getDataField exampleFlat 5 1 [10]
      = .value (st, dataFieldGet exampleTable 5 1) :=
  C19_getDataField_flat exampleFlat exampleTable rfl rfl
    (by
      intro q hq
      simp only [exampleTable, List.mem_cons, List.mem_singleton, List.not_mem_nil,
        or_false] at hq
      rcases hq with rfl | rfl <;> rfl)
    (by
      intro e he q hq
      simp only [exampleTable, List.mem_singleton] at he
      subst he
      simp only [List.mem_cons, List.mem_singleton, List.not_mem_nil, or_false] at hq
      rcases hq with rfl | rfl <;> rfl)
    rfl 5 1 [10]

/-! ## Termination of the container search -/

theorem helperLoopWith_eq (t : Nat) (p : List Nat) (d : Nat)
    (call : Nat → List (Nat × TableDataField) → Option (Outcome (Option TableDataField)))
    (m : List (Nat × TableDataField))
    (hcall : ∀ q ∈ m, q.2.isContainerValid = true →
      call ((d + 1) % UINT32_RANGE) q.2.containerMapGet
        = some (getDataFieldHelper t p ((d + 1) % UINT32_RANGE) q.2.containerMapGet)) :
    helperLoopWith call p d m = some (helperLoop t p d m) := by
  induction m with
  | nil => rw [helperLoopWith, helperLoop_nil]
  | cons a rest ih =>
    obtain ⟨k, f⟩ := a
    have ihr := ih (fun q hq hv => hcall q (List.mem_cons_of_mem _ hq) hv)
    rw [helperLoopWith, helperLoop_cons]
    cases pathAdmits p d k with
    | undefined => rfl
    | value c =>
      simp only
      by_cases hc : (c && f.isContainerValid) = true
      · have hv : f.isContainerValid = true := by
          simp only [Bool.and_eq_true] at hc; exact hc.2
        simp only [hc, if_true]
        rw [hcall (k, f) (List.mem_cons_self _ _) hv]
        cases getDataFieldHelper t p ((d + 1) % UINT32_RANGE) f.containerMapGet with
        | undefined => rfl
        | value r =>
          cases r with
          | none => exact ihr
          | some x => rfl
      · simp only [hc, if_false, Bool.false_eq_true]
        exact ihr

theorem getDataFieldHelperFuel_eq (t : Nat) (p : List Nat) :
    ∀ (fuel : Nat) (d : Nat) (m : List (Nat × TableDataField)), nestingDepth m < fuel →
      getDataFieldHelperFuel fuel t p d m = some (getDataFieldHelper t p d m) := by
  intro fuel
  induction fuel with
  | zero => intro d m h; omega
  | succ fuel ih =>
    intro d m h
    rw [getDataFieldHelperFuel]
    cases hfind : mapFind m t with
    | some f => simp only; rw [getDataFieldHelper_of_find p d hfind]
    | none =>
      simp only
      rw [getDataFieldHelper_of_not_find p d hfind]
      apply helperLoopWith_eq
      intro q hq hv
      have hlt := nestingDepth_of_mem hq hv
      exact ih _ _ (by omega)

theorem treeFields_cons (k : Nat) (f : TableDataField) (rest : List (Nat × TableDataField)) :
    treeFields ((k, f) :: rest) = f :: (treeFields f.containerMapGet ++ treeFields rest) := by
  cases f with
  | mk i n v c cn =>
    rw [treeFields, fieldSubfields]
    rfl

theorem treeFields_length_of_mem {m : List (Nat × TableDataField)} {q : Nat × TableDataField}
    (hq : q ∈ m) : (treeFields q.2.containerMapGet).length < (treeFields m).length := by
  induction m with
  | nil => simp at hq
  | cons a rest ih =>
    obtain ⟨k, f⟩ := a
    rw [treeFields_cons]
    simp only [List.length_cons, List.length_append]
    rcases List.mem_cons.mp hq with h | h
    · subst h; simp only; omega
    · have := ih h
      omega

/-- C16: the container search terminates for every target, path and starting
depth on every finite field tree: run in the shape of the source, it needs no
more nested calls than the tree has nesting levels (any fuel above
`nestingDepth m` yields the result, a found field, null, or the stop at the
out-of-range read of a wrapped depth); every recursive call is made on the
nested map of a field of the current map, a tree with strictly fewer fields
and, for a valid container, strictly fewer levels; and at a depth whose
counter does not wrap inside the tree the result is a returned value. -/
theorem C16_getDataFieldHelper_terminates (t : Nat) (p : List Nat) (d : Nat)
    (m : List (Nat × TableDataField)) :
    (∀ fuel, nestingDepth m < fuel →
        getDataFieldHelperFuel fuel t p d m = some (getDataFieldHelper t p d m)) ∧
      (∀ q ∈ m, (treeFields q.2.containerMapGet).length < (treeFields m).length) ∧
      (∀ q ∈ m, q.2.isContainerValid = true →
        nestingDepth q.2.containerMapGet < nestingDepth m) ∧
      (d + nestingDepth m < UINT32_RANGE → ∃ r, getDataFieldHelper t p d m = .value r) :=
  ⟨fun fuel h => getDataFieldHelperFuel_eq t p fuel d m h,
    fun _ hq => treeFields_length_of_mem hq,
    fun _ hq hv => nestingDepth_of_mem hq hv,
    fun h => getDataFieldHelper_defined_path t p _ m d (le_refl _) h⟩

/-- Witness of C16: the search for `20` with path `[10]` from depth `0` in the
doubly nested example runs to its end with fuel `4`. -/
theorem C16_getDataFieldHelper_terminates_witness :
    getDataFieldHelperFuel 4 20 [10] 0 exampleNested
        = some (getDataFieldHelper 20 [10] 0 exampleNested) ∧
      ∃ r, getDataFieldHelper 20 [10] 0 exampleNested = .value r :=
  have h := C16_getDataFieldHelper_terminates 20 [10] 0 exampleNested
  ⟨h.1 4 (by decide), h.2.2.2 (by decide)⟩

/-! ## A path only restricts the search -/

/-- C17: a path only restricts the container search.  If the search under a
path `p` returns a field, then the search with the empty path from the same
map and depth returns a field as well at every depth the code reaches
(entered at depth `0`, one more per nesting level, so that
`depth + nestingDepth m < 2^32`); and at any depth, whenever the empty-path
search returns a result, that result is a field and not null. -/
theorem C17_path_restricts (t : Nat) (p : List Nat) (d : Nat)
    (m : List (Nat × TableDataField)) (x : TableDataField)
    (hx : getDataFieldHelper t p d m = .value (some x)) :
    (d + nestingDepth m < UINT32_RANGE →
        ∃ y, getDataFieldHelper t [] d m = .value (some y)) ∧
      (∀ r, getDataFieldHelper t [] d m = .value r → ∃ y, r = some y) := by
  obtain ⟨m', hreach, hkey⟩ := getDataFieldHelper_reach_path t p _ m d x (le_refl _) hx
  have hmem : t ∈ mapKeys m' := by
    rw [← mapFind_isSome_iff, hkey]; rfl
  refine ⟨fun hd => getDataFieldHelper_wildcard_of_reach t hreach hmem d hd, ?_⟩
  intro r hr
  cases r with
  | some y => exact ⟨y, rfl⟩
  | none => exact absurd hmem (getDataFieldHelper_wildcard_none t hreach d hr)

/-- Witness of C17: path `[10]` and the empty path both find field `20` in the
common map of the spec's example. -/
theorem C17_path_restricts_witness :
    ∃ y, getDataFieldHelper 20 [] 0 exampleCommon = .value (some y) :=
  (C17_path_restricts 20 [10] 0 exampleCommon (leafField 20 "X") rfl).1 (by decide)

/-! ## Agreement of the name variant and the id variant -/

theorem helperFieldName_eq (n : String) (p : List Nat) (d : Nat) (f : TableDataField) :
    helperFieldName n p d f = getDataFieldHelperName n p d f.containerNameMapGet := by
  cases f; rfl

theorem helperLoopName_nil (n : String) (p : List Nat) (d : Nat) :
    helperLoopName n p d [] = .value none := by
  rw [helperLoopName]

theorem helperLoopName_cons (n : String) (p : List Nat) (d : Nat) (k : String)
    (f : TableDataField) (rest : List (String × TableDataField)) :
    helperLoopName n p d ((k, f) :: rest) =
      match pathAdmits p d f.idGet with
      | .undefined => .undefined
      | .value c =>
        if c && f.isContainerValid then
          match getDataFieldHelperName n p ((d + 1) % UINT32_RANGE) f.containerNameMapGet with
          | .undefined => .undefined
          | .value (some r) => .value (some r)
          | .value none => helperLoopName n p d rest
        else helperLoopName n p d rest := by
  rw [helperLoopName, helperFieldName_eq]

theorem getDataFieldHelperName_of_not_find {n : String} {m : List (String × TableDataField)}
    (p : List Nat) (d : Nat) (h : mapFind m n = none) :
    getDataFieldHelperName n p d m = helperLoopName n p d m := by
  simp [getDataFieldHelperName, h]

theorem helperLoop_hit (t : Nat) (p : List Nat) {d : Nat} (f : TableDataField)
    (hd : d + 1 < UINT32_RANGE) (m : List (Nat × TableDataField))
    (hsub : ∀ q ∈ m, admits p d q.1 = true → q.2.isContainerValid = true →
      getDataFieldHelper t p (d + 1) q.2.containerMapGet = .value none ∨
        getDataFieldHelper t p (d + 1) q.2.containerMapGet = .value (some f))
    (hex : ∃ q ∈ m, admits p d q.1 = true ∧ q.2.isContainerValid = true ∧
      getDataFieldHelper t p (d + 1) q.2.containerMapGet = .value (some f)) :
    helperLoop t p d m = .value (some f) := by
  induction m with
  | nil =>
    obtain ⟨q, hq, _⟩ := hex
    simp at hq
  | cons a rest ih =>
    obtain ⟨k, c⟩ := a
    rw [helperLoop_cons, pathAdmits_eq_admits p k hd, Nat.mod_eq_of_lt hd]
    have hrest : (∃ q ∈ rest, admits p d q.1 = true ∧ q.2.isContainerValid = true ∧
        getDataFieldHelper t p (d + 1) q.2.containerMapGet = .value (some f)) →
        helperLoop t p d rest = .value (some f) :=
      ih (fun q hq => hsub q (List.mem_cons_of_mem _ hq))
    by_cases hc : (admits p d k && c.isContainerValid) = true
    · have hc' := hc
      simp only [Bool.and_eq_true] at hc'
      simp only [hc, if_true]
      rcases hsub (k, c) (List.mem_cons_self _ _) hc'.1 hc'.2 with hs | hs
      · rw [hs]
        simp only
        apply hrest
        obtain ⟨q, hq, hqa, hqv, hqs⟩ := hex
        rcases List.mem_cons.mp hq with e | e
        · subst e
          rw [hs] at hqs; cases hqs
        · exact ⟨q, e, hqa, hqv, hqs⟩
      · rw [hs]
    · simp only [hc, if_false, Bool.false_eq_true]
      apply hrest
      obtain ⟨q, hq, hqa, hqv, hqs⟩ := hex
      rcases List.mem_cons.mp hq with e | e
      · subst e
        exact absurd (by simp only [Bool.and_eq_true]; exact ⟨hqa, hqv⟩) hc
      · exact ⟨q, e, hqa, hqv, hqs⟩

theorem helperLoop_miss (t : Nat) (p : List Nat) {d : Nat} (hd : d + 1 < UINT32_RANGE)
    (m : List (Nat × TableDataField))
    (hsub : ∀ q ∈ m, admits p d q.1 = true → q.2.isContainerValid = true →
      getDataFieldHelper t p (d + 1) q.2.containerMapGet = .value none) :
    helperLoop t p d m = .value none := by
  induction m with
  | nil => exact helperLoop_nil t p d
  | cons a rest ih =>
    obtain ⟨k, c⟩ := a
    rw [helperLoop_cons, pathAdmits_eq_admits p k hd, Nat.mod_eq_of_lt hd]
    have hrest := ih (fun q hq => hsub q (List.mem_cons_of_mem _ hq))
    by_cases hc : (admits p d k && c.isContainerValid) = true
    · have hc' := hc
      simp only [Bool.and_eq_true] at hc'
      simp only [hc, if_true]
      rw [hsub (k, c) (List.mem_cons_self _ _) hc'.1 hc'.2]
      exact hrest
    · simp only [hc, if_false, Bool.false_eq_true]
      exact hrest

theorem helperLoopName_hit (n : String) (p : List Nat) {d : Nat} (f : TableDataField)
    (hd : d + 1 < UINT32_RANGE) (m : List (String × TableDataField))
    (hsub : ∀ q ∈ m, admits p d q.2.idGet = true → q.2.isContainerValid = true →
      getDataFieldHelperName n p (d + 1) q.2.containerNameMapGet = .value none ∨
        getDataFieldHelperName n p (d + 1) q.2.containerNameMapGet = .value (some f))
    (hex : ∃ q ∈ m, admits p d q.2.idGet = true ∧ q.2.isContainerValid = true ∧
      getDataFieldHelperName n p (d + 1) q.2.containerNameMapGet = .value (some f)) :
    helperLoopName n p d m = .value (some f) := by
  induction m with
  | nil =>
    obtain ⟨q, hq, _⟩ := hex
    simp at hq
  | cons a rest ih =>
    obtain ⟨k, c⟩ := a
    rw [helperLoopName_cons, pathAdmits_eq_admits p c.idGet hd, Nat.mod_eq_of_lt hd]
    have hrest : (∃ q ∈ rest, admits p d q.2.idGet = true ∧ q.2.isContainerValid = true ∧
        getDataFieldHelperName n p (d + 1) q.2.containerNameMapGet = .value (some f)) →
        helperLoopName n p d rest = .value (some f) :=
      ih (fun q hq => hsub q (List.mem_cons_of_mem _ hq))
    by_cases hc : (admits p d c.idGet && c.isContainerValid) = true
    · have hc' := hc
      simp only [Bool.and_eq_true] at hc'
      simp only [hc, if_true]
      rcases hsub (k, c) (List.mem_cons_self _ _) hc'.1 hc'.2 with hs | hs
      · rw [hs]
        simp only
        apply hrest
        obtain ⟨q, hq, hqa, hqv, hqs⟩ := hex
        rcases List.mem_cons.mp hq with e | e
        · subst e
          rw [hs] at hqs; cases hqs
        · exact ⟨q, e, hqa, hqv, hqs⟩
      · rw [hs]
    · simp only [hc, if_false, Bool.false_eq_true]
      apply hrest
      obtain ⟨q, hq, hqa, hqv, hqs⟩ := hex
      rcases List.mem_cons.mp hq with e | e
      · subst e
        exact absurd (by simp only [Bool.and_eq_true]; exact ⟨hqa, hqv⟩) hc
      · exact ⟨q, e, hqa, hqv, hqs⟩

theorem helperLoopName_miss (n : String) (p : List Nat) {d : Nat} (hd : d + 1 < UINT32_RANGE)
    (m : List (String × TableDataField))
    (hsub : ∀ q ∈ m, admits p d q.2.idGet = true → q.2.isContainerValid = true →
      getDataFieldHelperName n p (d + 1) q.2.containerNameMapGet = .value none) :
    helperLoopName n p d m = .value none := by
  induction m with
  | nil => exact helperLoopName_nil n p d
  | cons a rest ih =>
    obtain ⟨k, c⟩ := a
    rw [helperLoopName_cons, pathAdmits_eq_admits p c.idGet hd, Nat.mod_eq_of_lt hd]
    have hrest := ih (fun q hq => hsub q (List.mem_cons_of_mem _ hq))
    by_cases hc : (admits p d c.idGet && c.isContainerValid) = true
    · have hc' := hc
      simp only [Bool.and_eq_true] at hc'
      simp only [hc, if_true]
      rw [hsub (k, c) (List.mem_cons_self _ _) hc'.1 hc'.2]
      exact hrest
    · simp only [hc, if_false, Bool.false_eq_true]
      exact hrest

theorem MapIndexed_cons (k : Nat) (f : TableDataField) (rest : List (Nat × TableDataField)) :
    MapIndexed ((k, f) :: rest) ↔ FieldIndexed f ∧ MapIndexed rest := by
  rw [MapIndexed]

theorem FieldIndexed_iff (f : TableDataField) :
    FieldIndexed f ↔ LevelOk f.containerMapGet f.containerNameMapGet ∧
      MapIndexed f.containerMapGet := by
  cases f with
  | mk i n v c cn =>
    rw [FieldIndexed]
    rfl

theorem MapIndexed_of_mem {m : List (Nat × TableDataField)} (h : MapIndexed m)
    {q : Nat × TableDataField} (hq : q ∈ m) : FieldIndexed q.2 := by
  induction m with
  | nil => simp at hq
  | cons a rest ih =>
    obtain ⟨k, f⟩ := a
    rw [MapIndexed_cons] at h
    rcases List.mem_cons.mp hq with e | e
    · subst e; exact h.1
    · exact ih h.2 e

theorem mem_treeFields_of_mem {m : List (Nat × TableDataField)} {q : Nat × TableDataField}
    (hq : q ∈ m) : q.2 ∈ treeFields m := by
  induction m with
  | nil => simp at hq
  | cons a rest ih =>
    obtain ⟨k, f⟩ := a
    rw [treeFields_cons]
    rcases List.mem_cons.mp hq with e | e
    · subst e; exact List.mem_cons_self _ _
    · exact List.mem_cons_of_mem _ (List.mem_append_right _ (ih e))

theorem mem_treeFields_of_nested {m : List (Nat × TableDataField)} {q : Nat × TableDataField}
    (hq : q ∈ m) {g : TableDataField} (hg : g ∈ treeFields q.2.containerMapGet) :
    g ∈ treeFields m := by
  induction m with
  | nil => simp at hq
  | cons a rest ih =>
    obtain ⟨k, f⟩ := a
    rw [treeFields_cons]
    rcases List.mem_cons.mp hq with e | e
    · subst e; exact List.mem_cons_of_mem _ (List.mem_append_left _ hg)
    · exact List.mem_cons_of_mem _ (List.mem_append_right _ (ih e))

theorem mem_values_iff {K : Type} {m : List (K × TableDataField)} {g : TableDataField} :
    g ∈ m.map Prod.snd ↔ ∃ k, (k, g) ∈ m := by
  constructor
  · intro h
    obtain ⟨q, hq, e⟩ := List.mem_map.mp h
    exact ⟨q.1, by rw [← e]; exact hq⟩
  · rintro ⟨k, hk⟩
    exact List.mem_map.mpr ⟨(k, g), hk, rfl⟩

theorem mapFind_of_mem_own {K : Type} [DecidableEq K] {m : List (K × TableDataField)}
    {k : K} (h : k ∈ mapKeys m) : ∃ g, mapFind m k = some g ∧ (k, g) ∈ m := by
  have hs := (mapFind_isSome_iff m k).mpr h
  obtain ⟨g, hg⟩ := Option.isSome_iff_exists.mp hs
  exact ⟨g, hg, mapFind_some_mem hg⟩

theorem search_agree (f : TableDataField) (p : List Nat) :
    ∀ (N : Nat) (idm : List (Nat × TableDataField)) (nm : List (String × TableDataField))
      (d : Nat), nestingDepth idm ≤ N → d + nestingDepth idm < UINT32_RANGE →
      LevelOk idm nm → MapIndexed idm →
      (∀ g ∈ treeFields idm, g.idGet = f.idGet → g = f) →
      (∀ g ∈ treeFields idm, g.nameGet = f.nameGet → g = f) →
      (getDataFieldHelper f.idGet p d idm = .value none ∨
          getDataFieldHelper f.idGet p d idm = .value (some f)) ∧
        getDataFieldHelperName f.nameGet p d nm = getDataFieldHelper f.idGet p d idm := by
  intro N
  induction N with
  | zero =>
    intro idm nm d hN _ hL _ _ _
    cases idm with
    | cons a rest =>
      have := nestingDepth_pos_of_ne_nil (List.cons_ne_nil a rest)
      omega
    | nil =>
      have hnm : nm = [] := by
        cases nm with
        | nil => rfl
        | cons b rest =>
          have := (hL.1 b.2).mpr (by simp)
          simp at this
      subst hnm
      exact ⟨Or.inl rfl, rfl⟩
  | succ N ih =>
    intro idm nm d hN hd hL hT hid hname
    -- a field stored in one of the two maps is stored in the other
    have hval_id : ∀ {k g}, (k, g) ∈ idm → ∃ kn, (kn, g) ∈ nm := fun {k g} h =>
      mem_values_iff.mp ((hL.1 g).mp (mem_values_iff.mpr ⟨k, h⟩))
    have hval_nm : ∀ {kn g}, (kn, g) ∈ nm → (g.idGet, g) ∈ idm := by
      intro kn g h
      obtain ⟨k, hk⟩ := mem_values_iff.mp ((hL.1 g).mpr (mem_values_iff.mpr ⟨kn, h⟩))
      have := hL.2.1 (k, g) hk
      simp only at this
      rw [← this]; exact hk
    by_cases hkey : f.idGet ∈ mapKeys idm
    · -- direct hit in both maps
      obtain ⟨g, hg, hgm⟩ := mapFind_of_mem_own hkey
      have hgid : g.idGet = f.idGet := (hL.2.1 (f.idGet, g) hgm).symm
      have hgf : g = f := hid g (mem_treeFields_of_mem hgm) hgid
      subst hgf
      obtain ⟨kn, hkn⟩ := hval_id hgm
      have hkn' : kn = g.nameGet := hL.2.2 (kn, g) hkn
      subst hkn'
      have hnkey : g.nameGet ∈ mapKeys nm := List.mem_map.mpr ⟨(g.nameGet, g), hkn, rfl⟩
      obtain ⟨g', hg', hg'm⟩ := mapFind_of_mem_own hnkey
      have hg'name : g'.nameGet = g.nameGet := (hL.2.2 (g.nameGet, g') hg'm).symm
      have hg'f : g' = g :=
        hname g' (mem_treeFields_of_mem (hval_nm hg'm)) hg'name
      subst hg'f
      rw [getDataFieldHelper_of_find p d hg, getDataFieldHelperName_of_find p d hg']
      exact ⟨Or.inr rfl, rfl⟩
    · have hfind : mapFind idm f.idGet = none := (mapFind_eq_none_iff _ _).mpr hkey
      have hnkey : f.nameGet ∉ mapKeys nm := by
        intro h
        obtain ⟨g', hg', hg'm⟩ := mapFind_of_mem_own h
        have hg'name : g'.nameGet = f.nameGet := (hL.2.2 (f.nameGet, g') hg'm).symm
        have hg'f : g' = f :=
          hname g' (mem_treeFields_of_mem (hval_nm hg'm)) hg'name
        subst hg'f
        exact hkey (List.mem_map.mpr ⟨(g'.idGet, g'), hval_nm hg'm, rfl⟩)
      have hfindn : mapFind nm f.nameGet = none := (mapFind_eq_none_iff _ _).mpr hnkey
      rw [getDataFieldHelper_of_not_find p d hfind, getDataFieldHelperName_of_not_find p d hfindn]
      cases idm with
      | nil =>
        have hnm : nm = [] := by
          cases nm with
          | nil => rfl
          | cons b rest =>
            have := (hL.1 b.2).mpr (by simp)
            simp at this
        subst hnm
        exact ⟨Or.inl (helperLoop_nil _ _ _), by rw [helperLoop_nil, helperLoopName_nil]⟩
      | cons a0 rest0 =>
        have hpos := nestingDepth_pos_of_ne_nil (List.cons_ne_nil a0 rest0)
        have hd1 : d + 1 < UINT32_RANGE := by omega
        -- the induction hypothesis for the valid containers of the map
        have hrec : ∀ q ∈ a0 :: rest0, q.2.isContainerValid = true →
            (getDataFieldHelper f.idGet p (d + 1) q.2.containerMapGet = .value none ∨
              getDataFieldHelper f.idGet p (d + 1) q.2.containerMapGet = .value (some f)) ∧
            getDataFieldHelperName f.nameGet p (d + 1) q.2.containerNameMapGet
              = getDataFieldHelper f.idGet p (d + 1) q.2.containerMapGet := by
          intro q hq hv
          have hlt := nestingDepth_of_mem hq hv
          have hFI := (FieldIndexed_iff q.2).mp (MapIndexed_of_mem hT hq)
          exact ih q.2.containerMapGet q.2.containerNameMapGet (d + 1) (by omega) (by omega)
            hFI.1 hFI.2
            (fun g hg => hid g (mem_treeFields_of_nested hq hg))
            (fun g hg => hname g (mem_treeFields_of_nested hq hg))
        have hsub_id : ∀ q ∈ a0 :: rest0, admits p d q.1 = true →
            q.2.isContainerValid = true →
            getDataFieldHelper f.idGet p (d + 1) q.2.containerMapGet = .value none ∨
              getDataFieldHelper f.idGet p (d + 1) q.2.containerMapGet = .value (some f) :=
          fun q hq _ hv => (hrec q hq hv).1
        have hsub_nm : ∀ q ∈ nm, admits p d q.2.idGet = true → q.2.isContainerValid = true →
            getDataFieldHelperName f.nameGet p (d + 1) q.2.containerNameMapGet = .value none ∨
              getDataFieldHelperName f.nameGet p (d + 1) q.2.containerNameMapGet
                = .value (some f) := by
          intro q hq _ hv
          have h := hrec (q.2.idGet, q.2) (@hval_nm q.1 q.2 hq) hv
          simp only at h
          rw [h.2]; exact h.1
        by_cases hex : ∃ q ∈ a0 :: rest0, admits p d q.1 = true ∧ q.2.isContainerValid = true ∧
            getDataFieldHelper f.idGet p (d + 1) q.2.containerMapGet = .value (some f)
        · have h1 := helperLoop_hit f.idGet p f hd1 (a0 :: rest0) hsub_id hex
          obtain ⟨q, hq, hqa, hqv, hqs⟩ := hex
          obtain ⟨kn, hkn⟩ := hval_id (k := q.1) (g := q.2) hq
          have hqid : q.1 = q.2.idGet := hL.2.1 q hq
          have h2 := helperLoopName_hit f.nameGet p f hd1 nm hsub_nm
            ⟨(kn, q.2), hkn, by simpa [← hqid] using hqa, hqv, by
              simp only; rw [(hrec q hq hqv).2]; exact hqs⟩
          rw [h1, h2]
          exact ⟨Or.inr rfl, rfl⟩
        · have hall : ∀ q ∈ a0 :: rest0, admits p d q.1 = true → q.2.isContainerValid = true →
              getDataFieldHelper f.idGet p (d + 1) q.2.containerMapGet = .value none := by
            intro q hq hqa hqv
            rcases (hrec q hq hqv).1 with h | h
            · exact h
            · exact absurd ⟨q, hq, hqa, hqv, h⟩ hex
          have h1 := helperLoop_miss f.idGet p hd1 (a0 :: rest0) hall
          have h2 := helperLoopName_miss f.nameGet p hd1 nm (by
            intro q hq hqa hqv
            have hm := @hval_nm q.1 q.2 hq
            have h := hrec (q.2.idGet, q.2) hm hqv
            simp only at h
            rw [h.2]
            exact hall (q.2.idGet, q.2) hm hqa hqv)
          rw [h1, h2]
          exact ⟨Or.inl rfl, rfl⟩

/-- C18: on a field tree of fewer than `2^32` nesting levels, as every tree
that the recursion with its 32-bit depth counter walks, in which every
id-keyed map and its name-keyed counterpart index the same fields under the
fields' own id and name, for a field `f` that is the only field of the tree
with its id and the only one with its name, the name-based search for
`f.name` and the id-based search for `f.id` from depth `0` return the same
result under every path: both return `f` or both return null. -/
theorem C18_name_id_agree (idm : List (Nat × TableDataField))
    (nm : List (String × TableDataField)) (f : TableDataField) (p : List Nat)
    (hLevel : LevelOk idm nm) (hTree : MapIndexed idm)
    (hid : ∀ g ∈ treeFields idm, g.idGet = f.idGet → g = f)
    (hname : ∀ g ∈ treeFields idm, g.nameGet = f.nameGet → g = f)
    (hnest : nestingDepth idm < UINT32_RANGE) :
    getDataFieldHelperName f.nameGet p 0 nm = getDataFieldHelper f.idGet p 0 idm ∧
      (getDataFieldHelper f.idGet p 0 idm = .value none ∨
        getDataFieldHelper f.idGet p 0 idm = .value (some f)) := by
  have h := search_agree f p _ idm nm 0 (le_refl _) (by omega) hLevel hTree hid hname
  exact ⟨h.2, h.1⟩

theorem LevelOk_nil : LevelOk [] [] :=
  ⟨fun _ => Iff.rfl, fun _ h => by simp at h, fun _ h => by simp at h⟩

theorem LevelOk_single (g : TableDataField) : LevelOk [(g.idGet, g)] [(g.nameGet, g)] := by
  refine ⟨fun _ => Iff.rfl, ?_, ?_⟩
  · intro q hq
    rw [List.mem_singleton] at hq
    subst hq; rfl
  · intro q hq
    rw [List.mem_singleton] at hq
    subst hq; rfl

theorem LevelOk_swap (g h : TableDataField) :
    LevelOk [(g.idGet, g), (h.idGet, h)] [(h.nameGet, h), (g.nameGet, g)] := by
  refine ⟨?_, ?_, ?_⟩
  · intro x
    simp only [List.map_cons, List.map_nil, List.mem_cons, List.mem_singleton,
      List.not_mem_nil, or_false]
    exact or_comm
  · intro q hq
    simp only [List.mem_cons, List.mem_singleton, List.not_mem_nil, or_false] at hq
    rcases hq with e | e <;> subst e <;> rfl
  · intro q hq
    simp only [List.mem_cons, List.mem_singleton, List.not_mem_nil, or_false] at hq
    rcases hq with e | e <;> subst e <;> rfl

theorem FieldIndexed_leafField (i : Nat) (n : String) : FieldIndexed (leafField i n) := by
  rw [FieldIndexed_iff]
  exact ⟨LevelOk_nil, by rw [leafField, TableDataField.containerMapGet, MapIndexed]; trivial⟩

theorem MapIndexed_single {k : Nat} {g : TableDataField} (h : FieldIndexed g) :
    MapIndexed [(k, g)] := by
  rw [MapIndexed_cons]
  exact ⟨h, by rw [MapIndexed]; trivial⟩

theorem FieldIndexed_container_single (i : Nat) (n : String) (g : TableDataField)
    (hg : FieldIndexed g) :
    FieldIndexed (containerField i n [(g.idGet, g)] [(g.nameGet, g)]) := by
  rw [FieldIndexed_iff]
  exact ⟨LevelOk_single g, MapIndexed_single hg⟩

theorem treeFields_nil : treeFields [] = [] := by
  rw [treeFields]

/-- Witness of C18: in the example the id order visits container
`1` (named `"z"`) first and the name order container `2` (named `"a"`) first;
both searches return field `20`. -/
theorem C18_name_id_agree_witness :
    getDataFieldHelperName "X" [] 0 exampleByName = getDataFieldHelper 20 [] 0 exampleById ∧
      getDataFieldHelper 20 [] 0 exampleById = .value (some (leafField 20 "X")) :=
  ⟨(C18_name_id_agree exampleById exampleByName (leafField 20 "X") []
      (LevelOk_swap (containerField 1 "z" [(3, leafField 3 "u")] [("u", leafField 3 "u")])
        (containerField 2 "a" [(20, leafField 20 "X")] [("X", leafField 20 "X")]))
      (by
        rw [exampleById, MapIndexed_cons]
        exact ⟨FieldIndexed_container_single 1 "z" (leafField 3 "u")
            (FieldIndexed_leafField 3 "u"),
          MapIndexed_single (FieldIndexed_container_single 2 "a" (leafField 20 "X")
            (FieldIndexed_leafField 20 "X"))⟩)
      (by
        intro g hg hgid
        simp only [exampleById, treeFields_cons, treeFields_nil, containerField, leafField,
          TableDataField.containerMapGet, List.mem_cons, List.mem_append, List.mem_singleton,
          List.not_mem_nil, or_false, List.append_nil, List.nil_append, false_or] at hg
        rcases hg with e | e | e | e <;> subst e <;> first | rfl | (exact absurd hgid (by decide)))
      (by
        intro g hg hgn
        simp only [exampleById, treeFields_cons, treeFields_nil, containerField, leafField,
          TableDataField.containerMapGet, List.mem_cons, List.mem_append, List.mem_singleton,
          List.not_mem_nil, or_false, List.append_nil, List.nil_append, false_or] at hg
        rcases hg with e | e | e | e <;> subst e <;> first | rfl | (exact absurd hgn (by decide)))
      (by decide)).1,
    rfl⟩

end Tdi
